import Mathlib

/-!
# Autogeneration of CronJob rules (pkg/policymutation/cronjob.go)

A shallow embedding of `generateCronJobRule`, `stripCronJob` and
`cronJobAnyAllAutogenRule`, followed by theorems about them.

Conventions of the embedding:

* a Go `string` is a byte sequence; a `String` here is read one `Char` per byte, so
  `len(s)` is `s.length` and `s[:n]` keeps the first `n` characters;
* a Go pointer (or interface value) that may be `nil` is an `Option`;
* a run-time panic (nil dereference, index out of range) is the result `none` of a
  function returning `Option`;
* values are immutable, hence a deep copy of a value is that value.
-/

namespace Kyverno

/-! ## Data model -/

/-- Modelled from the spec: the "nested key/value tree" carried by the untyped payload
members (Go `interface{}` holding decoded JSON); its Go declaration lies outside
cronjob.go. A map is a list of key/value pairs, an array a list of values. -/
inductive JSON where
  | null : JSON
  | bool (b : Bool) : JSON
  | num (n : Int) : JSON
  | str (s : String) : JSON
  | arr (xs : List JSON) : JSON
  | obj (kvs : List (String × JSON)) : JSON

instance : Inhabited JSON := ⟨JSON.null⟩

/-- Modelled from the spec: a FilterItem (kyverno.ResourceFilter, declared in
pkg/api/kyverno/v1): a `Kinds` field and further selector fields that are copied
verbatim and never inspected, gathered here in `Selectors`. -/
structure ResourceFilter where
  Kinds : List String := []
  Selectors : JSON := JSON.null

/-- Modelled from the spec: kyverno.ResourceFilters, an ordered sequence of filter
items. -/
abbrev ResourceFilters := List ResourceFilter

/-- Modelled from the spec: the ResourceFilterSet of the match half
(kyverno.MatchResources, declared in pkg/api/kyverno/v1), with members `Any`, `All`
and the plain `Kinds`; the remaining selector fields are gathered in `Selectors`. -/
structure MatchResources where
  Any : ResourceFilters := []
  All : ResourceFilters := []
  Kinds : List String := []
  Selectors : JSON := JSON.null

/-- Modelled from the spec: the ResourceFilterSet of the exclude half
(kyverno.ExcludeResources, declared in pkg/api/kyverno/v1). -/
structure ExcludeResources where
  Any : ResourceFilters := []
  All : ResourceFilters := []
  Kinds : List String := []
  Selectors : JSON := JSON.null

/-- Modelled from the spec: the per-item mutation descriptor (kyverno.ForEachMutation,
declared in pkg/api/kyverno/v1); only `PatchStrategicMerge` is inspected. -/
structure ForEachMutation where
  PatchStrategicMerge : Option JSON := none
  Other : JSON := JSON.null

/-- Modelled from the spec: the Mutation payload (kyverno.Mutation, declared in
pkg/api/kyverno/v1): `Overlay`, `PatchStrategicMerge`, `ForEachMutation`, and the
JSON-patch members `Patches` and `PatchesJSON6902` that cronjob.go never reads. -/
structure Mutation where
  Overlay : Option JSON := none
  Patches : List JSON := []
  PatchStrategicMerge : Option JSON := none
  PatchesJSON6902 : String := ""
  ForEachMutation : Option ForEachMutation := none

/-- Modelled from the spec: the per-item validation descriptor
(kyverno.ForEachValidation, declared in pkg/api/kyverno/v1); `Pattern`, `AnyPattern`
and `Deny` are tested for presence, the rest is gathered in `Other`. -/
structure ForEachValidation where
  Pattern : Option JSON := none
  AnyPattern : Option JSON := none
  Deny : Option JSON := none
  Other : JSON := JSON.null

/-- Modelled from the spec: the Validation payload (kyverno.Validation, declared in
pkg/api/kyverno/v1): a `Message` and the members `Pattern`, `AnyPattern`, `Deny`,
`ForEachValidation`. -/
structure Validation where
  Message : String := ""
  Pattern : Option JSON := none
  AnyPattern : Option JSON := none
  Deny : Option JSON := none
  ForEachValidation : Option ForEachValidation := none

/-- Modelled from the spec: an image-verification descriptor
(kyverno.ImageVerification, declared in pkg/api/kyverno/v1), never inspected. -/
structure ImageVerification where
  Image : String := ""
  Key : String := ""
  Other : JSON := JSON.null

/-- Modelled from the spec: the original rule (kyverno.Rule, declared in
pkg/api/kyverno/v1). Its payload members are struct values, not pointers; the list
`VerifyImages` holds pointers. Members cronjob.go never reads are in `Other`. -/
structure Rule where
  Name : String := ""
  MatchResources : MatchResources := {}
  ExcludeResources : ExcludeResources := {}
  Mutation : Mutation := {}
  Validation : Validation := {}
  VerifyImages : List (Option ImageVerification) := []
  Other : JSON := JSON.null

/-- Modelled from the spec: the rule under construction (type kyvernoRule, declared
in policymutation.go of the same package). Every member but `Name` is a pointer; the
slice `VerifyImages` may be nil (`none`) or hold pointers. -/
structure kyvernoRule where
  Name : String := ""
  MatchResources : Option MatchResources := none
  ExcludeResources : Option ExcludeResources := none
  Context : Option (List JSON) := none
  AnyAllConditions : Option JSON := none
  Mutation : Option Mutation := none
  Validation : Option Validation := none
  VerifyImages : Option (List (Option ImageVerification)) := none

/-- The zero value `kyvernoRule{}`: the "Absent" outcome. -/
def kyvernoRule.empty : kyvernoRule := {}

/-- Modelled from the spec: the constant engine.PodControllerCronJob, declared in
pkg/engine; the spec names the kind "CronJob". -/
def PodControllerCronJob : String := "CronJob"

/-- The functions cronjob.go consumes and that are declared elsewhere: the base-rule
generator, the message path rewriter (value, anchor, payload kind), the kind-membership
helper, and the decoder of a pattern array (its decoded sequence, or an error). -/
structure Collaborators where
  generateRuleForControllers : Rule → String → kyvernoRule
  FindAndShiftReferences : String → String → String → String
  ContainsPod : List String → String → Bool
  DeserializeAnyPattern : Validation → Except String (List JSON)

/-- Modelled from the spec: the deep-copy primitive, which "produces an independent
copy" that is "structurally complete"; on immutable values the copy is the value. -/
def DeepCopy {α : Type} (x : α) : α := x

/-! ## Standard-library string functions -/

/-- Whether the byte sequence starts with `p`. -/
def startsWith : List Char → List Char → Bool
  | _, [] => true
  | [], _ :: _ => false
  | c :: s, d :: p => c == d && startsWith s p

/-- Whether `sub` occurs somewhere inside the byte sequence. -/
def containsChars : List Char → List Char → Bool
  | [], sub => startsWith [] sub
  | c :: s, sub => startsWith (c :: s) sub || containsChars s sub

/-- Go `strings.Contains(s, substr)`: reports whether `substr` is within `s`. -/
def stringsContains (s substr : String) : Bool :=
  containsChars s.data substr.data

/-- Splitting a byte sequence around every occurrence of the separator byte. -/
def splitChars (sep : Char) : List Char → List (List Char)
  | [] => [[]]
  | c :: cs =>
    if c = sep then [] :: splitChars sep cs
    else
      match splitChars sep cs with
      | [] => [[c]]
      | t :: ts => (c :: t) :: ts

/-- Go `strings.Split(s, sep)` for a one-byte separator: the substrings between the
separators; a string without separator gives the one-element list of itself. -/
def stringsSplit (s : String) (sep : Char) : List String :=
  (splitChars sep s.data).map String.mk

/-- Go `strings.Join(elems, sep)`. -/
def stringsJoin : List String → String → String
  | [], _ => ""
  | [a], _ => a
  | a :: b :: rest, sep => a ++ sep ++ stringsJoin (b :: rest) sep

/-- Go slice expression `s[:n]` on a string of length at least `n`. -/
def sliceTo (s : String) (n : Nat) : String :=
  String.mk (s.data.take n)

/-! ## cronjob.go -/

/-- The assignment `anyKind[i].Kinds = kinds`; an index out of range panics. -/
def setKinds (anyKind : ResourceFilters) (i : Nat) (kinds : List String) :
    Option ResourceFilters :=
  match anyKind[i]? with
  | none => none
  | some item => some (anyKind.set i { item with Kinds := kinds })

/-- The loop `for i, value := range v` of cronJobAnyAllAutogenRule (lines 188-192),
started at index `i` with the items of `v` still to visit. -/
def cronJobAnyAllLoop (C : Collaborators) :
    List ResourceFilter → Nat → ResourceFilters → Option ResourceFilters
  | [], _, anyKind => some anyKind
  | value :: rest, i, anyKind =>
    if C.ContainsPod value.Kinds "Job" then
      (setKinds anyKind i [PodControllerCronJob]).bind (cronJobAnyAllLoop C rest (i + 1))
    else
      cronJobAnyAllLoop C rest (i + 1) anyKind

/-- Function cronJobAnyAllAutogenRule (cronjob.go lines 186-194). -/
def cronJobAnyAllAutogenRule (C : Collaborators) (v : ResourceFilters) :
    Option ResourceFilters :=
  let anyKind := DeepCopy v
  cronJobAnyAllLoop C v 0 anyKind

/-- The loop of stripCronJob (lines 171-177): `newControllers` is the accumulator. -/
def stripCronJobLoop : List String → List String → List String
  | newControllers, [] => newControllers
  | newControllers, c :: rest =>
    if c = PodControllerCronJob then stripCronJobLoop newControllers rest
    else stripCronJobLoop (newControllers ++ [c]) rest

/-- Function stripCronJob (cronjob.go lines 167-184). -/
def stripCronJob (controllers : String) : String :=
  let controllerArr := stringsSplit controllers ','
  let newControllers := stripCronJobLoop [] controllerArr
  if newControllers.length = 0 then ""
  else stringsJoin newControllers ","

/-- The test `reflect.DeepEqual(jobRule, kyvernoRule{})` (line 26): every member has
its zero value. -/
def DeepEqualEmpty (r : kyvernoRule) : Bool :=
  r.Name == "" && r.MatchResources.isNone && r.ExcludeResources.isNone &&
    r.Context.isNone && r.AnyAllConditions.isNone && r.Mutation.isNone &&
    r.Validation.isNone && r.VerifyImages.isNone

/-- The map literal `{"spec": {"jobTemplate": x}}` built in every wrapping branch. -/
def wrapJobTemplate (x : JSON) : JSON :=
  JSON.obj [("spec", JSON.obj [("jobTemplate", x)])]

/-- Lines 32-35: the derived name. -/
def cronJobName (rule : Rule) : String :=
  let name := "autogen-cronjob-" ++ rule.Name
  if name.length > 63 then sliceTo name 63 else name

/-- Lines 38-46: rewriting of the match half; `none` is the nil dereference of an
absent MatchResources. -/
def rewriteMatch (C : Collaborators) : Option MatchResources → Option MatchResources
  | none => none
  | some mr =>
    if mr.Any.length > 0 then
      (cronJobAnyAllAutogenRule C mr.Any).map fun rule => { mr with Any := rule }
    else if mr.All.length > 0 then
      (cronJobAnyAllAutogenRule C mr.All).map fun rule => { mr with All := rule }
    else
      some { mr with Kinds := [PodControllerCronJob] }

/-- Lines 48-58: rewriting of the exclude half; the outer `Option` is the panic
channel, the inner one the pointer. -/
def rewriteExclude (C : Collaborators) :
    Option ExcludeResources → Option (Option ExcludeResources)
  | none => some none
  | some ex =>
    if ex.Any.length > 0 then
      (cronJobAnyAllAutogenRule C ex.Any).map fun rule => some { ex with Any := rule }
    else if ex.All.length > 0 then
      (cronJobAnyAllAutogenRule C ex.All).map fun rule => some { ex with All := rule }
    else if ex.Kinds.length > 0 then
      some (some { ex with Kinds := [PodControllerCronJob] })
    else
      some (some ex)

/-- The loop of lines 114-122: every decoded pattern is wrapped and appended. -/
def wrapPatternsLoop : List JSON → List JSON → List JSON
  | patterns, [] => patterns
  | patterns, pattern :: rest =>
    wrapPatternsLoop (patterns ++ [wrapJobTemplate pattern]) rest

/-- The loop of lines 156-158 over the ORIGINAL rule's `VerifyImages`, writing into
`newVerifyImages` at the running index; an index out of range panics. -/
def copyVerifyImagesLoop :
    List (Option ImageVerification) → Nat → List (Option ImageVerification) →
      Option (List (Option ImageVerification))
  | [], _, newVerifyImages => some newVerifyImages
  | vi :: rest, i, newVerifyImages =>
    if i < newVerifyImages.length then
      copyVerifyImagesLoop rest (i + 1) (newVerifyImages.set i (DeepCopy vi))
    else none

/-- The anchor segment handed to the message path rewriter. -/
def jobTemplateAnchor : String := "spec/jobTemplate/spec/template"

/-- Lines 60-163: the payload dispatch on the rule `cronJobRule` (which aliases
`jobRule`), stopping at the first shape that is present. Each probe is `some` exactly
when the chain of nil tests of the corresponding `if` succeeds. -/
def dispatchPayload (C : Collaborators) (rule : Rule) (jobRule : kyvernoRule) :
    Option kyvernoRule :=
  -- line 60
  match jobRule.Mutation.bind fun m => m.Overlay with
  | some overlay =>
    some { jobRule with
      Mutation := some (DeepCopy { Overlay := some (wrapJobTemplate overlay) }) }
  | none =>
  -- line 73
  match jobRule.Mutation.bind fun m => m.PatchStrategicMerge with
  | some psm =>
    some { jobRule with
      Mutation := some (DeepCopy { PatchStrategicMerge := some (wrapJobTemplate psm) }) }
  | none =>
  -- line 85
  match jobRule.Validation.bind fun v => v.Pattern with
  | some pattern =>
    some { jobRule with
      Validation := some (DeepCopy {
        Message :=
          C.FindAndShiftReferences rule.Validation.Message jobTemplateAnchor "pattern",
        Pattern := some (wrapJobTemplate pattern) }) }
  | none =>
  -- line 98
  match (jobRule.Validation.bind fun v => v.ForEachValidation).bind fun f => f.Pattern with
  | some _ =>
    some { jobRule with
      Validation := some (DeepCopy {
        Message :=
          C.FindAndShiftReferences rule.Validation.Message jobTemplateAnchor "pattern",
        ForEachValidation := jobRule.Validation.bind fun v => v.ForEachValidation }) }
  | none =>
  -- line 107
  match jobRule.Validation.filter fun v => v.AnyPattern.isSome with
  | some v =>
    let anyPatterns :=
      match C.DeserializeAnyPattern v with
      | Except.ok ps => ps
      | Except.error _ => []
    let patterns := wrapPatternsLoop [] anyPatterns
    some { jobRule with
      Validation := some {
        Message :=
          C.FindAndShiftReferences rule.Validation.Message jobTemplateAnchor "anyPattern",
        AnyPattern := some (JSON.arr patterns) } }
  | none =>
  -- line 131
  match (jobRule.Validation.bind fun v => v.ForEachValidation).bind fun f => f.AnyPattern with
  | some _ =>
    some { jobRule with
      Validation := some {
        Message :=
          C.FindAndShiftReferences rule.Validation.Message jobTemplateAnchor "anyPattern",
        ForEachValidation := jobRule.Validation.bind fun v => v.ForEachValidation } }
  | none =>
  -- line 139
  match (jobRule.Validation.bind fun v => v.ForEachValidation).bind fun f => f.Deny with
  | some _ =>
    some { jobRule with
      Validation := some {
        Message :=
          C.FindAndShiftReferences rule.Validation.Message jobTemplateAnchor "anyPattern",
        ForEachValidation := jobRule.Validation.bind fun v => v.ForEachValidation } }
  | none =>
  -- line 147
  match (jobRule.Mutation.bind fun m => m.ForEachMutation).bind
      fun f => f.PatchStrategicMerge with
  | some _ =>
    some { jobRule with
      Mutation := some {
        ForEachMutation := jobRule.Mutation.bind fun m => m.ForEachMutation } }
  | none =>
  -- line 154
  match jobRule.VerifyImages with
  | some verifyImages =>
    let newVerifyImages := List.replicate verifyImages.length none
    (copyVerifyImagesLoop rule.VerifyImages 0 newVerifyImages).map fun copied =>
      { jobRule with VerifyImages := some copied }
  | none =>
  -- line 163
  some kyvernoRule.empty

/-- Line 18: the applicability check `hasCronJob`. -/
def hasCronJob (controllers : String) : Bool :=
  stringsContains controllers PodControllerCronJob || stringsContains controllers "all"

/-- Function generateCronJobRule (cronjob.go lines 15-164); the logger is dropped.
The result `none` is a run-time panic, `some kyvernoRule.empty` the Absent outcome. -/
def generateCronJobRule (C : Collaborators) (rule : Rule) (controllers : String) :
    Option kyvernoRule :=
  if !hasCronJob controllers then some kyvernoRule.empty
  else
    let jobRule := C.generateRuleForControllers rule "Job"
    if DeepEqualEmpty jobRule then some kyvernoRule.empty
    else
      let jobRule := { jobRule with Name := cronJobName rule }
      match rewriteMatch C jobRule.MatchResources with
      | none => none
      | some matchResources =>
        let jobRule := { jobRule with MatchResources := some matchResources }
        match rewriteExclude C jobRule.ExcludeResources with
        | none => none
        | some excludeResources =>
          let jobRule := { jobRule with ExcludeResources := excludeResources }
          dispatchPayload C rule jobRule

/-! ## Spec-side definitions -/

/-- The operation Remove of the Controller-Set Utility, following the words of the
spec: split on comma, drop all tokens equal to `member`, rejoin the remaining tokens
with comma. -/
def Remove (set member : String) : String :=
  stringsJoin ((stringsSplit set ',').filter fun t => !(t == member)) ","

/-- The per-item rewrite of the Resource-Filter Rewriter, following the words of the
spec: an item whose `Kinds` contains "Job" gets `Kinds` replaced by the single-element
list of the CronJob kind, any other item is left untouched. -/
def rewriteItem (C : Collaborators) (item : ResourceFilter) : ResourceFilter :=
  if C.ContainsPod item.Kinds "Job" then { item with Kinds := [PodControllerCronJob] }
  else item

/-- Modelled from the spec: the resource-kind membership helper (utils.ContainsPod,
declared in pkg/utils), "does this kind set contain Pod-family kind X", read as plain
membership of the kind in the list. -/
def ContainsPod (list : List String) (element : String) : Bool :=
  list.contains element

/-- Modelled from the spec: stand-ins for the external collaborators, used to evaluate
the code at concrete inputs only: a generator that returns the given base rule, a
message rewriter that records its anchor and payload kind after the message, the
membership helper above, and a decoder that accepts an array (or nothing) and reports
anything else as "cannot be interpreted as a sequence of pattern trees". -/
def sampleCollaborators (base : kyvernoRule) : Collaborators where
  generateRuleForControllers := fun _ _ => base
  FindAndShiftReferences := fun value shift pivot => value ++ "|" ++ shift ++ "|" ++ pivot
  ContainsPod := ContainsPod
  DeserializeAnyPattern := fun v =>
    match v.AnyPattern with
    | none => Except.ok []
    | some (JSON.arr xs) => Except.ok xs
    | some _ => Except.error "expect type array"

/-- The payload shapes, in the order of the dispatch: Mutation.Overlay,
Mutation.PatchStrategicMerge, Validation.Pattern, ForEachValidation.Pattern,
Validation.AnyPattern, ForEachValidation.AnyPattern, ForEachValidation.Deny,
ForEachMutation.PatchStrategicMerge, VerifyImages (each one "set", that is non-nil). -/
def matchesPayloadShape (base : kyvernoRule) : Bool :=
  (base.Mutation.bind fun m => m.Overlay).isSome ||
  (base.Mutation.bind fun m => m.PatchStrategicMerge).isSome ||
  (base.Validation.bind fun v => v.Pattern).isSome ||
  ((base.Validation.bind fun v => v.ForEachValidation).bind fun f => f.Pattern).isSome ||
  (base.Validation.bind fun v => v.AnyPattern).isSome ||
  ((base.Validation.bind fun v => v.ForEachValidation).bind fun f => f.AnyPattern).isSome ||
  ((base.Validation.bind fun v => v.ForEachValidation).bind fun f => f.Deny).isSome ||
  ((base.Mutation.bind fun m => m.ForEachMutation).bind
    fun f => f.PatchStrategicMerge).isSome ||
  base.VerifyImages.isSome

/-- The original rule of the worked example: a rule named "chk". -/
def chkRule : Rule := { Name := "chk" }

/-- The base rule of the worked example: Mutation.Overlay = {"spec":{"replicas":3}},
a MatchResources without Any/All lists, nothing else. -/
def chkBase : kyvernoRule :=
  { Name := "chk",
    MatchResources := some {},
    Mutation := some { Overlay := some (JSON.obj [("spec", JSON.obj [("replicas", JSON.num 3)])]) } }

/-- A base rule that has a name and nothing else: its MatchResources pointer is nil. -/
def bareBase : kyvernoRule := { Name := "autogen-chk" }

/-- A base rule with a name and a MatchResources, and no payload at all. -/
def noPayloadBase : kyvernoRule := { Name := "autogen-chk", MatchResources := some {} }

/-- An original rule whose name is 70 characters long. -/
def longRule : Rule :=
  { Name := "check-that-every-container-of-the-pod-template-declares-memory-limits1" }

/-- An original rule named "chk" with a validation message. -/
def msgRule : Rule :=
  { Name := "chk", Validation := { Message := "limits required at spec/template/spec" } }

/-- A base rule whose payload is Mutation.PatchStrategicMerge. -/
def patchBase : kyvernoRule :=
  { Name := "autogen-chk",
    MatchResources := some {},
    Mutation := some { PatchStrategicMerge := some (JSON.obj [("spec", JSON.num 1)]) } }

/-- A base rule whose payload is Validation.Pattern. -/
def patternBase : kyvernoRule :=
  { Name := "autogen-chk",
    MatchResources := some {},
    Validation := some {
      Message := "limits required at spec/template/spec",
      Pattern := some (JSON.obj [("spec", JSON.str "?*")]) } }

/-- A base rule whose payload is Validation.AnyPattern, an array of two patterns. -/
def anyPatternBase : kyvernoRule :=
  { Name := "autogen-chk",
    MatchResources := some {},
    Validation := some {
      Message := "limits required at spec/template/spec",
      AnyPattern := some (JSON.arr [JSON.obj [("spec", JSON.str "a")],
        JSON.obj [("spec", JSON.str "b")]]) } }

/-- An original rule that carries one image verification, for the image "ghcr.io/a". -/
def imageRule : Rule :=
  { Name := "chk", VerifyImages := [some { Image := "ghcr.io/a" }] }

/-- A base rule whose VerifyImages holds one verification, for the image "ghcr.io/b". -/
def imageBase : kyvernoRule :=
  { Name := "autogen-chk",
    MatchResources := some {},
    VerifyImages := some [some { Image := "ghcr.io/b" }] }

/-- The exclude half after lines 48-58, as a value. -/
def excludeRewritten (C : Collaborators) : Option ExcludeResources → Option ExcludeResources
  | none => none
  | some ex =>
    if ex.Any.length > 0 then some { ex with Any := ex.Any.map (rewriteItem C) }
    else if ex.All.length > 0 then some { ex with All := ex.All.map (rewriteItem C) }
    else if ex.Kinds.length > 0 then some { ex with Kinds := [PodControllerCronJob] }
    else some ex

/-- The match half after lines 38-46, as a value. -/
def matchRewritten (C : Collaborators) (mr : MatchResources) : MatchResources :=
  if mr.Any.length > 0 then { mr with Any := mr.Any.map (rewriteItem C) }
  else if mr.All.length > 0 then { mr with All := mr.All.map (rewriteItem C) }
  else { mr with Kinds := [PodControllerCronJob] }

/-- The rule on which the payload dispatch runs: the base rule after lines 32-58. -/
def prepared (C : Collaborators) (rule : Rule) (base : kyvernoRule) (mr : MatchResources) :
    kyvernoRule :=
  { base with
    Name := cronJobName rule,
    MatchResources := some (matchRewritten C mr),
    ExcludeResources := excludeRewritten C base.ExcludeResources }

/-- A base rule with a match-only Any list, no ExcludeResources, and an Overlay. -/
def anyMatchBase : kyvernoRule :=
  { Name := "autogen-chk",
    MatchResources := some { Any := [{ Kinds := ["Job", "Pod"] }] },
    Mutation := some { Overlay := some (JSON.obj [("spec", JSON.num 1)]) } }

/-- A base rule whose ExcludeResources has a plain kind list only, and an Overlay. -/
def excludeKindsBase : kyvernoRule :=
  { Name := "autogen-chk",
    MatchResources := some {},
    ExcludeResources := some { Kinds := ["Job"] },
    Mutation := some { Overlay := some (JSON.obj [("spec", JSON.num 1)]) } }

/-- A base rule whose Validation.AnyPattern is a string, which no decoder of pattern
arrays accepts. -/
def badAnyPatternBase : kyvernoRule :=
  { Name := "autogen-chk",
    MatchResources := some {},
    Validation := some {
      Message := "limits required at spec/template/spec",
      AnyPattern := some (JSON.str "not an array") } }

/-- A base rule whose Validation has both Pattern and AnyPattern set. -/
def bothPatternsBase : kyvernoRule :=
  { Name := "autogen-chk",
    MatchResources := some {},
    Validation := some {
      Message := "limits required at spec/template/spec",
      Pattern := some (JSON.obj [("spec", JSON.str "?*")]),
      AnyPattern := some (JSON.arr [JSON.obj [("spec", JSON.str "a")]]) } }

/-- A per-item validation descriptor that only has Deny set. -/
def denyForEach : ForEachValidation :=
  { Deny := some (JSON.obj [("conditions", JSON.arr [])]), Other := JSON.str "request.object" }

/-- A base rule whose payload is ForEachValidation.Deny. -/
def denyBase : kyvernoRule :=
  { Name := "autogen-chk",
    MatchResources := some {},
    Validation := some {
      Message := "limits required at spec/template/spec",
      ForEachValidation := some denyForEach } }

/-- An original rule that carries two image verifications. -/
def twoImagesRule : Rule :=
  { Name := "chk",
    VerifyImages := [some { Image := "ghcr.io/a" }, some { Image := "ghcr.io/c" }] }

/-- Joining byte sequences with a separator byte: `strings.Join` on the level of the
bytes, used to state the lemmas on splitting a joined string. -/
def joinChars (sep : Char) : List (List Char) → List Char
  | [] => []
  | [a] => a
  | a :: b :: rest => a ++ sep :: joinChars sep (b :: rest)

/-! ## Lemmas on the loops -/

theorem stripCronJobLoop_eq (acc tokens : List String) :
    stripCronJobLoop acc tokens
      = acc ++ tokens.filter fun t => !(t == PodControllerCronJob) := by
  induction tokens generalizing acc with
  | nil => simp [stripCronJobLoop]
  | cons c rest ih =>
    by_cases h : c = PodControllerCronJob
    · simp [stripCronJobLoop, h, ih]
    · simp [stripCronJobLoop, h, ih]

theorem stringsJoin_nil (sep : String) : stringsJoin [] sep = "" := rfl

theorem cronJobAnyAllLoop_eq (C : Collaborators) (rest pre : List ResourceFilter) :
    cronJobAnyAllLoop C rest pre.length (pre.map (rewriteItem C) ++ rest)
      = some (pre.map (rewriteItem C) ++ rest.map (rewriteItem C)) := by
  induction rest generalizing pre with
  | nil => simp [cronJobAnyAllLoop]
  | cons value rest ih =>
    have key := ih (pre ++ [value])
    simp only [List.length_append, List.length_singleton, List.map_append, List.map_cons,
      List.map_nil, List.append_assoc, List.singleton_append] at key
    by_cases h : C.ContainsPod value.Kinds "Job" = true
    · have hget : (List.map (rewriteItem C) pre ++ value :: rest)[pre.length]? = some value := by
        rw [List.getElem?_append_right (by simp)]
        simp
      have hset : (List.map (rewriteItem C) pre ++ value :: rest).set pre.length
            { value with Kinds := [PodControllerCronJob] }
          = List.map (rewriteItem C) pre ++ rewriteItem C value :: rest := by
        rw [List.set_append_right _ _ (by simp)]
        simp [rewriteItem, h]
      simp only [cronJobAnyAllLoop, h, if_true, setKinds, hget, hset, Option.some_bind, key,
        List.map_cons]
    · have hitem : rewriteItem C value = value := by simp [rewriteItem, h]
      rw [hitem] at key
      simp only [cronJobAnyAllLoop, h, key, List.map_cons, hitem]
      simp

theorem cronJobAnyAllAutogenRule_eq (C : Collaborators) (v : ResourceFilters) :
    cronJobAnyAllAutogenRule C v = some (v.map (rewriteItem C)) := by
  have := cronJobAnyAllLoop_eq C v []
  simpa [cronJobAnyAllAutogenRule, DeepCopy] using this

/-! ## Lemmas on the string functions -/

theorem startsWith_iff (s p : List Char) : startsWith s p = true ↔ p <+: s := by
  induction s generalizing p with
  | nil => cases p <;> simp [startsWith]
  | cons c s ih =>
    cases p with
    | nil => simp [startsWith]
    | cons d p =>
      simp only [startsWith, Bool.and_eq_true, beq_iff_eq, ih, List.cons_prefix_cons]
      constructor
      · rintro ⟨h1, h2⟩; exact ⟨h1.symm, h2⟩
      · rintro ⟨h1, h2⟩; exact ⟨h1.symm, h2⟩

theorem containsChars_iff (s sub : List Char) : containsChars s sub = true ↔ sub <:+: s := by
  induction s with
  | nil =>
    simp only [containsChars, startsWith_iff, List.prefix_nil, List.infix_nil]
  | cons c s ih =>
    simp only [containsChars, Bool.or_eq_true, startsWith_iff, ih, List.infix_cons_iff]

theorem sliceTo_length (s : String) (n : Nat) : (sliceTo s n).length = min n s.length :=
  List.length_take n s.data

theorem cronJobName_length (rule : Rule) : 16 ≤ (cronJobName rule).length := by
  unfold cronJobName
  have hlen : ("autogen-cronjob-" ++ rule.Name).length = 16 + rule.Name.length := by
    rw [String.length_append]; rfl
  simp only []
  split
  · next h =>
    have hs := sliceTo_length ("autogen-cronjob-" ++ rule.Name) 63
    omega
  · omega

theorem cronJobName_ne_empty (rule : Rule) : cronJobName rule ≠ "" := by
  intro h
  have := cronJobName_length rule
  rw [h] at this
  simp at this

/-! ## Lemmas on the steps of generateCronJobRule -/

theorem DeepEqualEmpty_iff (r : kyvernoRule) :
    DeepEqualEmpty r = true ↔ r = kyvernoRule.empty := by
  constructor
  · intro h
    obtain ⟨n, mr, er, cx, aa, mu, va, vi⟩ := r
    simp only [DeepEqualEmpty, Bool.and_eq_true, beq_iff_eq, Option.isNone_iff_eq_none] at h
    obtain ⟨⟨⟨⟨⟨⟨⟨h1, h2⟩, h3⟩, h4⟩, h5⟩, h6⟩, h7⟩, h8⟩ := h
    subst h1 h2 h3 h4 h5 h6 h7 h8
    rfl
  · rintro rfl
    rfl

theorem rewriteMatch_some (C : Collaborators) (mr : MatchResources) :
    rewriteMatch C (some mr) = some
      (if mr.Any.length > 0 then { mr with Any := mr.Any.map (rewriteItem C) }
       else if mr.All.length > 0 then { mr with All := mr.All.map (rewriteItem C) }
       else { mr with Kinds := [PodControllerCronJob] }) := by
  unfold rewriteMatch
  simp only [cronJobAnyAllAutogenRule_eq, Option.map_some']
  split_ifs <;> rfl

theorem rewriteExclude_some (C : Collaborators) (ex : Option ExcludeResources) :
    rewriteExclude C ex = some (excludeRewritten C ex) := by
  cases ex with
  | none => rfl
  | some ex =>
    unfold rewriteExclude excludeRewritten
    simp only [cronJobAnyAllAutogenRule_eq, Option.map_some']
    split_ifs <;> rfl

theorem generateCronJobRule_not_applicable (C : Collaborators) (rule : Rule)
    (controllers : String) (hc : hasCronJob controllers = false) :
    generateCronJobRule C rule controllers = some kyvernoRule.empty := by
  simp [generateCronJobRule, hc]

theorem generateCronJobRule_base_empty (C : Collaborators) (rule : Rule)
    (controllers : String) (hc : hasCronJob controllers = true)
    (hb : C.generateRuleForControllers rule "Job" = kyvernoRule.empty) :
    generateCronJobRule C rule controllers = some kyvernoRule.empty := by
  simp [generateCronJobRule, hc, (DeepEqualEmpty_iff _).mpr hb]

theorem generateCronJobRule_nil_match (C : Collaborators) (rule : Rule)
    (controllers : String) (hc : hasCronJob controllers = true)
    (hb : C.generateRuleForControllers rule "Job" ≠ kyvernoRule.empty)
    (hmr : (C.generateRuleForControllers rule "Job").MatchResources = none) :
    generateCronJobRule C rule controllers = none := by
  have hd : DeepEqualEmpty (C.generateRuleForControllers rule "Job") = false := by
    rw [Bool.eq_false_iff]; exact fun h => hb ((DeepEqualEmpty_iff _).mp h)
  simp [generateCronJobRule, hc, hd, hmr, rewriteMatch]

theorem generateCronJobRule_eq (C : Collaborators) (rule : Rule) (controllers : String)
    (mr : MatchResources) (hc : hasCronJob controllers = true)
    (hb : C.generateRuleForControllers rule "Job" ≠ kyvernoRule.empty)
    (hmr : (C.generateRuleForControllers rule "Job").MatchResources = some mr) :
    generateCronJobRule C rule controllers
      = dispatchPayload C rule (prepared C rule (C.generateRuleForControllers rule "Job") mr) := by
  have hd : DeepEqualEmpty (C.generateRuleForControllers rule "Job") = false := by
    rw [Bool.eq_false_iff]; exact fun h => hb ((DeepEqualEmpty_iff _).mp h)
  have hm := rewriteMatch_some C mr
  simp only [generateCronJobRule, hc, hd, hmr, hm, rewriteExclude_some]
  rfl

theorem ne_empty_of_name (r : kyvernoRule) (h : r.Name ≠ "") : r ≠ kyvernoRule.empty := by
  rintro rfl
  exact h rfl

theorem anyPattern_probe (V : Option Validation) :
    (V.filter fun v => v.AnyPattern.isSome).isSome = (V.bind fun v => v.AnyPattern).isSome := by
  cases V with
  | none => rfl
  | some v =>
    cases h : v.AnyPattern <;> simp [Option.filter, h]

theorem dispatchPayload_absent_iff (C : Collaborators) (rule : Rule) (J : kyvernoRule)
    (hname : J.Name ≠ "") :
    dispatchPayload C rule J = some kyvernoRule.empty ↔ matchesPayloadShape J = false := by
  have key : ∀ r : kyvernoRule, r.Name = J.Name → ¬ (some r = some kyvernoRule.empty) := by
    intro r hr h
    exact ne_empty_of_name r (hr ▸ hname) (Option.some.inj h)
  unfold dispatchPayload matchesPayloadShape
  repeat' split
  all_goals first
    | (refine iff_of_false (key _ rfl) ?_; simp_all)
    | skip
  · refine iff_of_false ?_ (by simp_all)
    intro h
    dsimp only at h
    rcases Option.map_eq_some'.mp h with ⟨copied, -, hc⟩
    exact ne_empty_of_name _ (by exact hname) hc
  · rename_i _ h1 _ h2 _ h3 _ h4 _ h5 _ h6 _ h7 _ h8 _ h9
    have hprobe := anyPattern_probe J.Validation
    rw [h5] at hprobe
    have h5b : (J.Validation.bind fun v => v.AnyPattern) = none := by
      rw [← Option.not_isSome_iff_eq_none, ← hprobe]; simp
    simp [h1, h2, h3, h4, h5b, h6, h7, h8, h9]

theorem generateCronJobRule_some_inv (C : Collaborators) (rule : Rule)
    (controllers : String) (r : kyvernoRule)
    (h : generateCronJobRule C rule controllers = some r) (hne : r ≠ kyvernoRule.empty) :
    hasCronJob controllers = true ∧
      C.generateRuleForControllers rule "Job" ≠ kyvernoRule.empty ∧
      ∃ mr, (C.generateRuleForControllers rule "Job").MatchResources = some mr ∧
        dispatchPayload C rule (prepared C rule (C.generateRuleForControllers rule "Job") mr)
          = some r := by
  cases hc : hasCronJob controllers with
  | false =>
    rw [generateCronJobRule_not_applicable C rule controllers hc] at h
    exact absurd (Option.some.inj h).symm hne
  | true =>
    by_cases hb : C.generateRuleForControllers rule "Job" = kyvernoRule.empty
    · rw [generateCronJobRule_base_empty C rule controllers hc hb] at h
      exact absurd (Option.some.inj h).symm hne
    · cases hmr : (C.generateRuleForControllers rule "Job").MatchResources with
      | none =>
        rw [generateCronJobRule_nil_match C rule controllers hc hb hmr] at h
        cases h
      | some mr =>
        rw [generateCronJobRule_eq C rule controllers mr hc hb hmr] at h
        exact ⟨rfl, hb, mr, rfl, h⟩

theorem dispatchPayload_name (C : Collaborators) (rule : Rule) (J r : kyvernoRule)
    (h : dispatchPayload C rule J = some r) : r = kyvernoRule.empty ∨ r.Name = J.Name := by
  unfold dispatchPayload at h
  repeat' split at h
  all_goals first
    | (right; rw [← Option.some.inj h]; done)
    | skip
  · right
    dsimp only at h
    rcases Option.map_eq_some'.mp h with ⟨copied, -, hc⟩
    rw [← hc]
  · left
    exact (Option.some.inj h).symm

theorem dispatchPayload_produces (C : Collaborators) (rule : Rule) (J : kyvernoRule)
    (hname : J.Name ≠ "")
    (hshape : matchesPayloadShape { J with VerifyImages := none } = true) :
    ∃ r, dispatchPayload C rule J = some r ∧ r ≠ kyvernoRule.empty := by
  have key : ∀ r : kyvernoRule, r.Name = J.Name →
      ∃ r1, some r = some r1 ∧ r1 ≠ kyvernoRule.empty :=
    fun r hr => ⟨r, rfl, ne_empty_of_name r (hr ▸ hname)⟩
  have hprobe := anyPattern_probe J.Validation
  unfold matchesPayloadShape at hshape
  unfold dispatchPayload
  repeat' split
  all_goals first
    | exact key _ rfl
    | skip
  all_goals simp_all

theorem wrapPatternsLoop_eq (acc ps : List JSON) :
    wrapPatternsLoop acc ps = acc ++ ps.map wrapJobTemplate := by
  induction ps generalizing acc with
  | nil => simp [wrapPatternsLoop]
  | cons p ps ih => simp [wrapPatternsLoop, ih]

theorem dispatchPayload_overlay (C : Collaborators) (rule : Rule) (J : kyvernoRule)
    (o : JSON) (h1 : (J.Mutation.bind fun m => m.Overlay) = some o) :
    dispatchPayload C rule J
      = some { J with Mutation := some { Overlay := some (wrapJobTemplate o) } } := by
  simp only [dispatchPayload, h1, DeepCopy]

theorem dispatchPayload_patchStrategicMerge (C : Collaborators) (rule : Rule)
    (J : kyvernoRule) (p : JSON)
    (h1 : (J.Mutation.bind fun m => m.Overlay) = none)
    (h2 : (J.Mutation.bind fun m => m.PatchStrategicMerge) = some p) :
    dispatchPayload C rule J
      = some { J with Mutation := some { PatchStrategicMerge := some (wrapJobTemplate p) } } := by
  simp only [dispatchPayload, h1, h2, DeepCopy]

theorem dispatchPayload_pattern (C : Collaborators) (rule : Rule) (J : kyvernoRule)
    (p : JSON)
    (h1 : (J.Mutation.bind fun m => m.Overlay) = none)
    (h2 : (J.Mutation.bind fun m => m.PatchStrategicMerge) = none)
    (h3 : (J.Validation.bind fun v => v.Pattern) = some p) :
    dispatchPayload C rule J
      = some { J with Validation := some {
          Message :=
            C.FindAndShiftReferences rule.Validation.Message jobTemplateAnchor "pattern",
          Pattern := some (wrapJobTemplate p) } } := by
  simp only [dispatchPayload, h1, h2, h3, DeepCopy]

theorem dispatchPayload_anyPattern (C : Collaborators) (rule : Rule) (J : kyvernoRule)
    (v : Validation) (a : JSON)
    (h1 : (J.Mutation.bind fun m => m.Overlay) = none)
    (h2 : (J.Mutation.bind fun m => m.PatchStrategicMerge) = none)
    (hv : J.Validation = some v)
    (h3 : v.Pattern = none)
    (h4 : (v.ForEachValidation.bind fun f => f.Pattern) = none)
    (h5 : v.AnyPattern = some a) :
    dispatchPayload C rule J
      = some { J with Validation := some {
          Message :=
            C.FindAndShiftReferences rule.Validation.Message jobTemplateAnchor "anyPattern",
          AnyPattern := some (JSON.arr
            ((match C.DeserializeAnyPattern v with
              | Except.ok ps => ps
              | Except.error _ => []).map wrapJobTemplate)) } } := by
  have h3b : (J.Validation.bind fun v => v.Pattern) = none := by simp [hv, h3]
  have h4b : ((J.Validation.bind fun v => v.ForEachValidation).bind fun f => f.Pattern)
      = none := by simp [hv, h4]
  have h5b : (J.Validation.filter fun v => v.AnyPattern.isSome) = some v := by
    simp [hv, Option.filter, h5]
  simp only [dispatchPayload, h1, h2, h3b, h4b, h5b, wrapPatternsLoop_eq, List.nil_append]

theorem generateCronJobRule_of_mutation (C : Collaborators) (rule : Rule)
    (controllers : String) (m : Mutation) (J : kyvernoRule → kyvernoRule)
    (hJ : ∀ K : kyvernoRule, (J K).Name = K.Name)
    (hm : (C.generateRuleForControllers rule "Job").Mutation = some m)
    (hd : ∀ K : kyvernoRule, K.Mutation = some m → dispatchPayload C rule K = some (J K)) :
    (∀ r, generateCronJobRule C rule controllers = some r → r ≠ kyvernoRule.empty →
      ∃ K, K.Mutation = some m ∧ r = J K) ∧
    (hasCronJob controllers = true →
      (C.generateRuleForControllers rule "Job").MatchResources.isSome = true →
      ∃ r, generateCronJobRule C rule controllers = some r ∧ r ≠ kyvernoRule.empty) := by
  constructor
  · intro r hr hne
    obtain ⟨-, -, mr, -, hdis⟩ := generateCronJobRule_some_inv C rule controllers r hr hne
    rw [hd (prepared C rule (C.generateRuleForControllers rule "Job") mr) hm] at hdis
    exact ⟨(prepared C rule (C.generateRuleForControllers rule "Job") mr), hm,
      (Option.some.inj hdis).symm⟩
  · intro hc hmr
    have hb : C.generateRuleForControllers rule "Job" ≠ kyvernoRule.empty := by
      intro hb
      rw [hb] at hm
      cases hm
    obtain ⟨mr, hmr⟩ := Option.isSome_iff_exists.mp hmr
    rw [generateCronJobRule_eq C rule controllers mr hc hb hmr,
      hd (prepared C rule (C.generateRuleForControllers rule "Job") mr) hm]
    refine ⟨_, rfl, ne_empty_of_name _ ?_⟩
    rw [hJ]
    exact cronJobName_ne_empty rule

theorem generateCronJobRule_of_validation (C : Collaborators) (rule : Rule)
    (controllers : String) (v : Validation) (J : kyvernoRule → kyvernoRule)
    (hJ : ∀ K : kyvernoRule, (J K).Name = K.Name)
    (h1 : ((C.generateRuleForControllers rule "Job").Mutation.bind fun m => m.Overlay) = none)
    (h2 : ((C.generateRuleForControllers rule "Job").Mutation.bind
      fun m => m.PatchStrategicMerge) = none)
    (hv : (C.generateRuleForControllers rule "Job").Validation = some v)
    (hd : ∀ K : kyvernoRule, (K.Mutation.bind fun m => m.Overlay) = none →
      (K.Mutation.bind fun m => m.PatchStrategicMerge) = none → K.Validation = some v →
      dispatchPayload C rule K = some (J K)) :
    (∀ r, generateCronJobRule C rule controllers = some r → r ≠ kyvernoRule.empty →
      ∃ K, K.Validation = some v ∧ r = J K) ∧
    (hasCronJob controllers = true →
      (C.generateRuleForControllers rule "Job").MatchResources.isSome = true →
      ∃ r, generateCronJobRule C rule controllers = some r ∧ r ≠ kyvernoRule.empty) := by
  constructor
  · intro r hr hne
    obtain ⟨-, -, mr, -, hdis⟩ := generateCronJobRule_some_inv C rule controllers r hr hne
    rw [hd (prepared C rule (C.generateRuleForControllers rule "Job") mr) h1 h2 hv] at hdis
    exact ⟨(prepared C rule (C.generateRuleForControllers rule "Job") mr), hv,
      (Option.some.inj hdis).symm⟩
  · intro hc hmr
    have hb : C.generateRuleForControllers rule "Job" ≠ kyvernoRule.empty := by
      intro hb
      rw [hb] at hv
      cases hv
    obtain ⟨mr, hmr⟩ := Option.isSome_iff_exists.mp hmr
    rw [generateCronJobRule_eq C rule controllers mr hc hb hmr,
      hd (prepared C rule (C.generateRuleForControllers rule "Job") mr) h1 h2 hv]
    refine ⟨_, rfl, ne_empty_of_name _ ?_⟩
    rw [hJ]
    exact cronJobName_ne_empty rule

theorem anyPattern_two (w : Validation) (out : List JSON)
    (h1 : w.AnyPattern = some (JSON.arr out)) (h2 : out.length = 2)
    (h3 : ∀ (i : Nat) (hi : i < 2) (ho : i < out.length),
      out[i] = JSON.obj [("spec", JSON.obj [("jobTemplate",
        [JSON.obj [("spec", JSON.str "a")], JSON.obj [("spec", JSON.str "b")]][i])])]) :
    w.AnyPattern = some (JSON.arr [
      JSON.obj [("spec", JSON.obj [("jobTemplate", JSON.obj [("spec", JSON.str "a")])])],
      JSON.obj [("spec", JSON.obj [("jobTemplate", JSON.obj [("spec", JSON.str "b")])])]]) := by
  rw [h1]
  match out, h2, h3 with
  | [x, y], _, h3 =>
    have hx := h3 0 (by decide) (by simp)
    have hy := h3 1 (by decide) (by simp)
    simp only [List.getElem_cons_zero, List.getElem_cons_succ] at hx hy
    rw [hx, hy]

/-! ## Lemmas for the controller-set tokens -/

theorem splitChars_shape (sep : Char) (cs : List Char) :
    ∃ t ts, splitChars sep cs = t :: ts ∧ t <+: cs ∧ ∀ u ∈ ts, u <:+: cs := by
  induction cs with
  | nil => exact ⟨[], [], rfl, List.prefix_refl _, by simp⟩
  | cons c cs ih =>
    obtain ⟨t, ts, hsplit, hpre, hrest⟩ := ih
    by_cases hc : c = sep
    · refine ⟨[], t :: ts, by simp [splitChars, hc, hsplit], List.nil_prefix, ?_⟩
      intro u hu
      rcases List.mem_cons.mp hu with rfl | hu
      · exact (List.infix_cons_iff).mpr (Or.inr hpre.isInfix)
      · exact (List.infix_cons_iff).mpr (Or.inr (hrest u hu))
    · refine ⟨c :: t, ts, by simp [splitChars, hc, hsplit],
        (List.cons_prefix_cons).mpr ⟨rfl, hpre⟩, ?_⟩
      intro u hu
      exact (List.infix_cons_iff).mpr (Or.inr (hrest u hu))

theorem splitChars_mem_within (sep : Char) (cs u : List Char) (hu : u ∈ splitChars sep cs) :
    u <:+: cs := by
  obtain ⟨t, ts, hsplit, hpre, hrest⟩ := splitChars_shape sep cs
  rw [hsplit] at hu
  rcases List.mem_cons.mp hu with rfl | hu
  · exact hpre.isInfix
  · exact hrest u hu

theorem stringsContains_of_token (s t : String) (h : t ∈ stringsSplit s ',') :
    stringsContains s t = true := by
  unfold stringsSplit at h
  obtain ⟨u, hu, rfl⟩ := List.mem_map.mp h
  exact (containsChars_iff _ _).mpr (splitChars_mem_within ',' s.data u hu)

theorem generateCronJobRule_congr (C : Collaborators) (rule : Rule) (a b : String)
    (h : hasCronJob a = hasCronJob b) :
    generateCronJobRule C rule a = generateCronJobRule C rule b := by
  unfold generateCronJobRule
  rw [h]

/-! ## Frame of the payload dispatch -/

theorem dispatchPayload_frame (C : Collaborators) (rule : Rule) (J r : kyvernoRule)
    (h : dispatchPayload C rule J = some r) :
    r = kyvernoRule.empty ∨
      (r.Name = J.Name ∧ r.MatchResources = J.MatchResources ∧
        r.ExcludeResources = J.ExcludeResources) := by
  unfold dispatchPayload at h
  repeat' split at h
  all_goals first
    | (right; rw [← Option.some.inj h]; exact ⟨rfl, rfl, rfl⟩)
    | skip
  · right
    dsimp only at h
    rcases Option.map_eq_some'.mp h with ⟨copied, -, hc⟩
    rw [← hc]
    exact ⟨rfl, rfl, rfl⟩
  · left
    exact (Option.some.inj h).symm

theorem generateCronJobRule_filters (C : Collaborators) (rule : Rule)
    (controllers : String) (r : kyvernoRule)
    (h : generateCronJobRule C rule controllers = some r) (hne : r ≠ kyvernoRule.empty) :
    ∃ mr, (C.generateRuleForControllers rule "Job").MatchResources = some mr ∧
      r.MatchResources = some (matchRewritten C mr) ∧
      r.ExcludeResources
        = excludeRewritten C (C.generateRuleForControllers rule "Job").ExcludeResources := by
  obtain ⟨-, -, mr, hmr, hd⟩ := generateCronJobRule_some_inv C rule controllers r h hne
  rcases dispatchPayload_frame C rule _ r hd with he | ⟨-, hm, hx⟩
  · exact absurd he hne
  · exact ⟨mr, hmr, hm, hx⟩

theorem dispatchPayload_forEachPattern (C : Collaborators) (rule : Rule) (J : kyvernoRule)
    (v : Validation) (f : ForEachValidation) (q : JSON)
    (h1 : (J.Mutation.bind fun m => m.Overlay) = none)
    (h2 : (J.Mutation.bind fun m => m.PatchStrategicMerge) = none)
    (hv : J.Validation = some v)
    (h3 : v.Pattern = none)
    (hf : v.ForEachValidation = some f)
    (hq : f.Pattern = some q) :
    dispatchPayload C rule J
      = some { J with Validation := some {
          Message :=
            C.FindAndShiftReferences rule.Validation.Message jobTemplateAnchor "pattern",
          ForEachValidation := some f } } := by
  have h3b : (J.Validation.bind fun v => v.Pattern) = none := by simp [hv, h3]
  have hfb : (J.Validation.bind fun v => v.ForEachValidation) = some f := by simp [hv, hf]
  simp only [dispatchPayload, h1, h2, h3b, hfb, Option.some_bind, hq, DeepCopy]

theorem dispatchPayload_forEachAnyPattern (C : Collaborators) (rule : Rule)
    (J : kyvernoRule) (v : Validation) (f : ForEachValidation) (q : JSON)
    (h1 : (J.Mutation.bind fun m => m.Overlay) = none)
    (h2 : (J.Mutation.bind fun m => m.PatchStrategicMerge) = none)
    (hv : J.Validation = some v)
    (h3 : v.Pattern = none)
    (hf : v.ForEachValidation = some f)
    (h4 : f.Pattern = none)
    (h5 : v.AnyPattern = none)
    (hq : f.AnyPattern = some q) :
    dispatchPayload C rule J
      = some { J with Validation := some {
          Message :=
            C.FindAndShiftReferences rule.Validation.Message jobTemplateAnchor "anyPattern",
          ForEachValidation := some f } } := by
  have h3b : (J.Validation.bind fun v => v.Pattern) = none := by simp [hv, h3]
  have hfb : (J.Validation.bind fun v => v.ForEachValidation) = some f := by simp [hv, hf]
  have h5b : (J.Validation.filter fun v => v.AnyPattern.isSome) = none := by
    simp [hv, Option.filter, h5]
  simp only [dispatchPayload, h1, h2, h3b, hfb, Option.some_bind, h4, h5b, hq]

theorem dispatchPayload_forEachDeny (C : Collaborators) (rule : Rule)
    (J : kyvernoRule) (v : Validation) (f : ForEachValidation) (q : JSON)
    (h1 : (J.Mutation.bind fun m => m.Overlay) = none)
    (h2 : (J.Mutation.bind fun m => m.PatchStrategicMerge) = none)
    (hv : J.Validation = some v)
    (h3 : v.Pattern = none)
    (hf : v.ForEachValidation = some f)
    (h4 : f.Pattern = none)
    (h5 : v.AnyPattern = none)
    (h6 : f.AnyPattern = none)
    (hq : f.Deny = some q) :
    dispatchPayload C rule J
      = some { J with Validation := some {
          Message :=
            C.FindAndShiftReferences rule.Validation.Message jobTemplateAnchor "anyPattern",
          ForEachValidation := some f } } := by
  have h3b : (J.Validation.bind fun v => v.Pattern) = none := by simp [hv, h3]
  have hfb : (J.Validation.bind fun v => v.ForEachValidation) = some f := by simp [hv, hf]
  have h5b : (J.Validation.filter fun v => v.AnyPattern.isSome) = none := by
    simp [hv, Option.filter, h5]
  simp only [dispatchPayload, h1, h2, h3b, hfb, Option.some_bind, h4, h5b, h6, hq]

/-! ## Splitting a joined string -/

theorem splitChars_of_not_mem (sep : Char) (a : List Char) (h : sep ∉ a) :
    splitChars sep a = [a] := by
  induction a with
  | nil => rfl
  | cons c a ih =>
    have hc : c ≠ sep := fun hc => h (hc ▸ List.mem_cons_self _ _)
    have ha : sep ∉ a := fun ha => h (List.mem_cons_of_mem _ ha)
    simp [splitChars, hc, ih ha]

theorem splitChars_append_sep (sep : Char) (a cs : List Char) (h : sep ∉ a) :
    splitChars sep (a ++ sep :: cs) = a :: splitChars sep cs := by
  induction a with
  | nil => simp [splitChars]
  | cons c a ih =>
    have hc : c ≠ sep := fun hc => h (hc ▸ List.mem_cons_self _ _)
    have ha : sep ∉ a := fun ha => h (List.mem_cons_of_mem _ ha)
    simp [splitChars, hc, ih ha]

theorem splitChars_joinChars (sep : Char) (l : List (List Char)) (hl : l ≠ [])
    (h : ∀ t ∈ l, sep ∉ t) : splitChars sep (joinChars sep l) = l := by
  induction l with
  | nil => exact absurd rfl hl
  | cons a rest ih =>
    cases rest with
    | nil => exact splitChars_of_not_mem sep a (h a (List.mem_cons_self _ _))
    | cons b rest =>
      have hrest := ih (List.cons_ne_nil _ _) (fun t ht => h t (List.mem_cons_of_mem _ ht))
      show splitChars sep (a ++ sep :: joinChars sep (b :: rest)) = _
      rw [splitChars_append_sep sep a _ (h a (List.mem_cons_self _ _)), hrest]

theorem splitChars_no_sep (sep : Char) (cs : List Char) :
    ∀ t ∈ splitChars sep cs, sep ∉ t := by
  induction cs with
  | nil => simp [splitChars]
  | cons c cs ih =>
    by_cases hc : c = sep
    · intro t ht
      simp only [splitChars, hc, if_true, List.mem_cons] at ht
      rcases ht with rfl | ht
      · simp
      · exact ih t ht
    · obtain ⟨t0, ts, hsplit, -, -⟩ := splitChars_shape sep cs
      intro t ht
      rw [hsplit] at ih
      simp only [splitChars, hc, if_false, hsplit, List.mem_cons] at ht
      rcases ht with rfl | ht
      · intro hmem
        rcases List.mem_cons.mp hmem with hh | hh
        · exact hc hh.symm
        · exact ih t0 (List.mem_cons_self _ _) hh
      · exact ih t (List.mem_cons_of_mem _ ht)

theorem stringsJoin_data (l : List String) :
    (stringsJoin l ",").data = joinChars ',' (l.map String.data) := by
  induction l with
  | nil => rfl
  | cons a rest ih =>
    cases rest with
    | nil => rfl
    | cons b rest =>
      show ((a ++ "," ++ stringsJoin (b :: rest) ",")).data = _
      rw [String.data_append, String.data_append, ih]
      simp [joinChars]

theorem stringsSplit_stringsJoin (l : List String) (hl : l ≠ [])
    (h : ∀ t ∈ l, ',' ∉ t.data) : stringsSplit (stringsJoin l ",") ',' = l := by
  unfold stringsSplit
  rw [stringsJoin_data, splitChars_joinChars ',' (l.map String.data)
    (by simpa using hl) (by simpa using h)]
  simp [List.map_map, Function.comp_def]

theorem stringsSplit_no_comma (s : String) : ∀ t ∈ stringsSplit s ',', ',' ∉ t.data := by
  intro t ht
  unfold stringsSplit at ht
  obtain ⟨u, hu, rfl⟩ := List.mem_map.mp ht
  exact splitChars_no_sep ',' s.data u hu

theorem stripCronJob_eq_join (s : String) :
    stripCronJob s
      = stringsJoin ((stringsSplit s ',').filter fun t => !(t == PodControllerCronJob)) "," := by
  have hloop := stripCronJobLoop_eq [] (stringsSplit s ',')
  simp only [List.nil_append] at hloop
  unfold stripCronJob
  simp only [hloop]
  split
  · next h =>
    rw [List.length_eq_zero.mp h]
    rfl
  · rfl

/-! ## Claims -/

/-- C10: for every controller-set string `s`, stripCronJob(s) is the comma-join of the
tokens of `s` (split on commas) with every token equal to "CronJob" removed, in their
original order; it is the empty string when no token remains. -/
theorem stripCronJob_spec (s : String) :
    stripCronJob s = Remove s "CronJob" ∧
      stripCronJob s
        = stringsJoin ((stringsSplit s ',').filter fun t => decide (t ≠ "CronJob")) "," ∧
      (((stringsSplit s ',').filter fun t => decide (t ≠ "CronJob")) = [] →
        stripCronJob s = "") := by
  have hfilter : ((stringsSplit s ',').filter fun t => decide (t ≠ "CronJob"))
      = (stringsSplit s ',').filter fun t => !(t == "CronJob") := by
    congr 1
    funext t
    by_cases h : t = "CronJob" <;> simp [h]
  have hloop := stripCronJobLoop_eq [] (stringsSplit s ',')
  simp only [List.nil_append] at hloop
  have hmain : stripCronJob s = Remove s "CronJob" := by
    unfold stripCronJob Remove
    simp only [hloop, PodControllerCronJob]
    split
    · next h =>
      rw [List.length_eq_zero.mp h]
      rfl
    · rfl
  refine ⟨hmain, ?_, ?_⟩
  · rw [hmain, hfilter]; rfl
  · intro h
    rw [hmain, Remove, ← hfilter, h]
    rfl

/-- C10, at concrete inputs: a set holding only "CronJob" strips to the empty string. -/
theorem stripCronJob_spec_witness :
    stripCronJob "CronJob" = "" ∧ stripCronJob "Deployment,CronJob,Job" = "Deployment,Job" :=
  ⟨(stripCronJob_spec "CronJob").2.2 (by decide), by decide⟩

/-- C4: cronJobAnyAllAutogenRule returns a list of the same length as its input; at
every index, an item whose Kinds contains "Job" (per the membership helper) gets Kinds
exactly ["CronJob"] with every other field kept, and any other item is returned as it
is. With a helper that finds "Job" in ["Job","Pod"], the list [{Kinds:["Job","Pod"]}]
becomes [{Kinds:["CronJob"]}]. -/
theorem cronJobAnyAllAutogenRule_spec (C : Collaborators) (v : ResourceFilters) :
    (∃ out, cronJobAnyAllAutogenRule C v = some out ∧ out.length = v.length ∧
      ∀ (i : Nat) (hv : i < v.length) (ho : i < out.length),
        (C.ContainsPod v[i].Kinds "Job" = true →
          out[i].Kinds = ["CronJob"] ∧ out[i].Selectors = v[i].Selectors) ∧
        (C.ContainsPod v[i].Kinds "Job" = false → out[i] = v[i])) ∧
    (C.ContainsPod ["Job", "Pod"] "Job" = true →
      cronJobAnyAllAutogenRule C [{ Kinds := ["Job", "Pod"] }]
        = some [{ Kinds := ["CronJob"] }]) := by
  constructor
  · refine ⟨v.map (rewriteItem C), cronJobAnyAllAutogenRule_eq C v, by simp, ?_⟩
    intro i hv ho
    constructor
    · intro h
      simp [rewriteItem, h, PodControllerCronJob]
    · intro h
      simp [rewriteItem, h]
  · intro h
    rw [cronJobAnyAllAutogenRule_eq]
    simp [rewriteItem, h, PodControllerCronJob]

/-- C4, at the concrete list of the claim, with plain membership as the helper. -/
theorem cronJobAnyAllAutogenRule_spec_witness :
    cronJobAnyAllAutogenRule (sampleCollaborators {}) [{ Kinds := ["Job", "Pod"] }]
      = some [{ Kinds := ["CronJob"] }] :=
  (cronJobAnyAllAutogenRule_spec (sampleCollaborators {}) []).2 (by decide)

/-- C1, refuted as stated: in the controller set "Deployment,MyCronJob" no
comma-separated token equals "CronJob" and none equals "all", yet generateCronJobRule
does not return the empty rule (the test of line 18 looks for the text "CronJob"
anywhere in the string). -/
theorem generateCronJobRule_token_counterexample :
    "CronJob" ∉ stringsSplit "Deployment,MyCronJob" ',' ∧
      "all" ∉ stringsSplit "Deployment,MyCronJob" ',' ∧
      generateCronJobRule (sampleCollaborators chkBase) chkRule "Deployment,MyCronJob"
        ≠ some kyvernoRule.empty := by
  refine ⟨by decide, by decide, fun h => ?_⟩
  exact absurd (congrArg (Option.map kyvernoRule.Name) h) (by decide)

/-- C1, amended: for every original rule, every generator and every controller-set
string in which neither "CronJob" nor "all" occurs anywhere as a substring,
generateCronJobRule returns the empty rule (Absent). -/
theorem generateCronJobRule_absent_of_no_substring (C : Collaborators) (rule : Rule)
    (controllers : String)
    (h1 : ¬ "CronJob".data <:+: controllers.data)
    (h2 : ¬ "all".data <:+: controllers.data) :
    generateCronJobRule C rule controllers = some kyvernoRule.empty := by
  apply generateCronJobRule_not_applicable
  rw [Bool.eq_false_iff]
  intro h
  simp only [hasCronJob, stringsContains, Bool.or_eq_true, containsChars_iff,
    PodControllerCronJob] at h
  exact h.elim h1 h2

/-- C1, amended, at the controller set "pod,deployment" of the spec. -/
theorem generateCronJobRule_absent_of_no_substring_witness :
    generateCronJobRule (sampleCollaborators chkBase) chkRule "pod,deployment"
      = some kyvernoRule.empty :=
  generateCronJobRule_absent_of_no_substring (sampleCollaborators chkBase) chkRule
    "pod,deployment" (by decide) (by decide)

/-- C2, refuted as stated: for the base rule that has only a name, no payload shape
matches, yet generateCronJobRule does not return the empty rule: line 38 dereferences
the nil MatchResources and the call panics. -/
theorem generateCronJobRule_absent_iff_counterexample :
    generateCronJobRule (sampleCollaborators bareBase) chkRule "CronJob" = none ∧
      matchesPayloadShape
        ((sampleCollaborators bareBase).generateRuleForControllers chkRule "Job") = false ∧
      ¬ (generateCronJobRule (sampleCollaborators bareBase) chkRule "CronJob"
            = some kyvernoRule.empty ↔
          (hasCronJob "CronJob" = false ∨
            (sampleCollaborators bareBase).generateRuleForControllers chkRule "Job"
              = kyvernoRule.empty ∨
            matchesPayloadShape
              ((sampleCollaborators bareBase).generateRuleForControllers chkRule "Job")
                = false)) := by
  have hnone : generateCronJobRule (sampleCollaborators bareBase) chkRule "CronJob" = none :=
    rfl
  refine ⟨hnone, rfl, fun h => ?_⟩
  have hsome := h.mpr (Or.inr (Or.inr rfl))
  rw [hnone] at hsome
  cases hsome

/-- C2, amended: for every base rule that is the empty rule or has its MatchResources
present, generateCronJobRule returns the empty rule (Absent) exactly when the
controller set does not pass the applicability check, or the base rule is the empty
rule, or the base rule matches none of the payload shapes (VerifyImages counting as
matched when it is non-nil); in every other case any rule it returns is different from
the empty rule, and when the matched shape is not VerifyImages a rule is returned. -/
theorem generateCronJobRule_absent_iff (C : Collaborators) (rule : Rule)
    (controllers : String)
    (hmr : C.generateRuleForControllers rule "Job" = kyvernoRule.empty ∨
      (C.generateRuleForControllers rule "Job").MatchResources.isSome = true) :
    (generateCronJobRule C rule controllers = some kyvernoRule.empty ↔
      (hasCronJob controllers = false ∨
        C.generateRuleForControllers rule "Job" = kyvernoRule.empty ∨
        matchesPayloadShape (C.generateRuleForControllers rule "Job") = false)) ∧
    (∀ r, generateCronJobRule C rule controllers = some r →
      ¬ (hasCronJob controllers = false ∨
        C.generateRuleForControllers rule "Job" = kyvernoRule.empty ∨
        matchesPayloadShape (C.generateRuleForControllers rule "Job") = false) →
      r ≠ kyvernoRule.empty) ∧
    (hasCronJob controllers = true →
      matchesPayloadShape
        { C.generateRuleForControllers rule "Job" with VerifyImages := none } = true →
      ∃ r, generateCronJobRule C rule controllers = some r ∧ r ≠ kyvernoRule.empty) := by
  have hiff : generateCronJobRule C rule controllers = some kyvernoRule.empty ↔
      (hasCronJob controllers = false ∨
        C.generateRuleForControllers rule "Job" = kyvernoRule.empty ∨
        matchesPayloadShape (C.generateRuleForControllers rule "Job") = false) := by
    cases hc : hasCronJob controllers with
    | false =>
      exact iff_of_true (generateCronJobRule_not_applicable C rule controllers hc)
        (Or.inl rfl)
    | true =>
      by_cases hb : C.generateRuleForControllers rule "Job" = kyvernoRule.empty
      · exact iff_of_true (generateCronJobRule_base_empty C rule controllers hc hb)
          (Or.inr (Or.inl hb))
      · rcases hmr with hmr | hmr
        · exact absurd hmr hb
        · obtain ⟨mr, hmr⟩ := Option.isSome_iff_exists.mp hmr
          rw [generateCronJobRule_eq C rule controllers mr hc hb hmr,
            dispatchPayload_absent_iff C rule _ (cronJobName_ne_empty rule)]
          have hshape : matchesPayloadShape
              (prepared C rule (C.generateRuleForControllers rule "Job") mr)
              = matchesPayloadShape (C.generateRuleForControllers rule "Job") := rfl
          rw [hshape]
          simp [hb]
  refine ⟨hiff, ?_, ?_⟩
  · intro r hr hcond hre
    exact hcond (hiff.mp (hre ▸ hr))
  · intro hc hshape
    have hb : C.generateRuleForControllers rule "Job" ≠ kyvernoRule.empty := by
      intro hb
      rw [hb] at hshape
      exact absurd hshape (by decide)
    rcases hmr with hmr | hmr
    · exact absurd hmr hb
    · obtain ⟨mr, hmr⟩ := Option.isSome_iff_exists.mp hmr
      rw [generateCronJobRule_eq C rule controllers mr hc hb hmr]
      exact dispatchPayload_produces C rule _ (cronJobName_ne_empty rule) hshape

/-- C2, amended, at a base rule with a MatchResources and no payload: Absent. -/
theorem generateCronJobRule_absent_iff_witness :
    generateCronJobRule (sampleCollaborators noPayloadBase) chkRule "CronJob"
      = some kyvernoRule.empty :=
  (generateCronJobRule_absent_iff (sampleCollaborators noPayloadBase) chkRule "CronJob"
    (Or.inr rfl)).1.mpr (Or.inr (Or.inr rfl))

/-- C3: whenever generateCronJobRule produces a rule, its Name is
"autogen-cronjob-" + originalRule.Name when that concatenation is at most 63 long, and
otherwise exactly its first 63 characters; for an original name of length 70 the
produced name has length 63 and is a prefix of "autogen-cronjob-" + name. -/
theorem generateCronJobRule_name (C : Collaborators) (rule : Rule) (controllers : String)
    (r : kyvernoRule) (h : generateCronJobRule C rule controllers = some r)
    (hne : r ≠ kyvernoRule.empty) :
    r.Name =
        (if ("autogen-cronjob-" ++ rule.Name).length ≤ 63 then "autogen-cronjob-" ++ rule.Name
         else String.mk (("autogen-cronjob-" ++ rule.Name).data.take 63)) ∧
      (rule.Name.length = 70 →
        r.Name.length = 63 ∧ r.Name.data <+: ("autogen-cronjob-" ++ rule.Name).data) := by
  obtain ⟨-, -, mr, -, hd⟩ := generateCronJobRule_some_inv C rule controllers r h hne
  have hname : r.Name = cronJobName rule := by
    rcases dispatchPayload_name C rule _ r hd with he | hn
    · exact absurd he hne
    · exact hn
  have hlen : ("autogen-cronjob-" ++ rule.Name).length = 16 + rule.Name.length := by
    rw [String.length_append]; rfl
  constructor
  · rw [hname]
    unfold cronJobName
    by_cases hle : ("autogen-cronjob-" ++ rule.Name).length ≤ 63
    · simp only [hle, if_true, if_neg (Nat.not_lt.mpr hle)]
    · simp only [hle, if_false, if_pos (Nat.lt_of_not_le hle), sliceTo]
  · intro h70
    have hgt : ("autogen-cronjob-" ++ rule.Name).length > 63 := by omega
    have hcut : r.Name = sliceTo ("autogen-cronjob-" ++ rule.Name) 63 := by
      rw [hname]
      unfold cronJobName
      simp only [hgt, if_true]
    constructor
    · rw [hcut, sliceTo_length]
      omega
    · rw [hcut]
      exact List.take_prefix 63 _

/-- C3, at an original rule whose name has 70 characters: the produced name is the
first 63 characters of the concatenation. -/
theorem generateCronJobRule_name_witness :
    ∃ r, generateCronJobRule (sampleCollaborators chkBase) longRule "CronJob" = some r ∧
      r ≠ kyvernoRule.empty ∧
      r.Name = "autogen-cronjob-check-that-every-container-of-the-pod-template-" ∧
      r.Name.length = 63 :=
  ⟨_, rfl, fun h => absurd (congrArg kyvernoRule.Name h) (by decide),
    ((generateCronJobRule_name (sampleCollaborators chkBase) longRule "CronJob" _ rfl
      (fun h => absurd (congrArg kyvernoRule.Name h) (by decide))).1.trans (by decide)),
    ((generateCronJobRule_name (sampleCollaborators chkBase) longRule "CronJob" _ rfl
      (fun h => absurd (congrArg kyvernoRule.Name h) (by decide))).2 (by decide)).1⟩

/-- C5, refuted as stated: with the controller set "cronjob,job" (lower case) the
check of line 18 fails and generateCronJobRule returns the empty rule (Absent) for the
base rule of the example, instead of a rule named "autogen-cronjob-chk". -/
theorem generateCronJobRule_lowercase_counterexample :
    generateCronJobRule (sampleCollaborators chkBase) chkRule "cronjob,job"
      = some kyvernoRule.empty :=
  rfl

/-- C5, amended: for an original rule named "chk" whose base rule has the
Mutation.Overlay {"spec":{"replicas":3}} and a MatchResources with no Any/All lists,
and the controller set "CronJob,Job", generateCronJobRule produces a rule (not Absent)
whose Name is "autogen-cronjob-chk", whose MatchResources.Kinds is ["CronJob"], and
whose Mutation.Overlay is {"spec":{"jobTemplate":{"spec":{"replicas":3}}}}. -/
theorem generateCronJobRule_chk (C : Collaborators) (rule : Rule) (mr : MatchResources)
    (m : Mutation) (hn : rule.Name = "chk")
    (hmr : (C.generateRuleForControllers rule "Job").MatchResources = some mr)
    (hany : mr.Any = []) (hall : mr.All = [])
    (hm : (C.generateRuleForControllers rule "Job").Mutation = some m)
    (ho : m.Overlay = some (JSON.obj [("spec", JSON.obj [("replicas", JSON.num 3)])])) :
    ∃ r, generateCronJobRule C rule "CronJob,Job" = some r ∧ r ≠ kyvernoRule.empty ∧
      r.Name = "autogen-cronjob-chk" ∧
      r.MatchResources.map (fun x => x.Kinds) = some ["CronJob"] ∧
      (r.Mutation.bind fun x => x.Overlay) = some (JSON.obj [("spec", JSON.obj
        [("jobTemplate", JSON.obj [("spec", JSON.obj [("replicas", JSON.num 3)])])])]) := by
  have hb : C.generateRuleForControllers rule "Job" ≠ kyvernoRule.empty := by
    intro hb
    rw [hb] at hm
    cases hm
  have hname : cronJobName rule = "autogen-cronjob-chk" := by
    unfold cronJobName
    rw [hn]
    decide
  have hprobe : ((prepared C rule (C.generateRuleForControllers rule "Job") mr).Mutation.bind
      fun m => m.Overlay)
      = some (JSON.obj [("spec", JSON.obj [("replicas", JSON.num 3)])]) := by
    show ((C.generateRuleForControllers rule "Job").Mutation.bind fun m => m.Overlay) = _
    rw [hm]
    exact ho
  rw [generateCronJobRule_eq C rule "CronJob,Job" mr (by decide) hb hmr,
    dispatchPayload_overlay C rule _ _ hprobe]
  refine ⟨_, rfl, ?_, ?_, ?_, ?_⟩
  · apply ne_empty_of_name
    show cronJobName rule ≠ ""
    exact cronJobName_ne_empty rule
  · exact hname
  · show Option.map (fun x => x.Kinds) (some (matchRewritten C mr)) = _
    simp [matchRewritten, hany, hall, PodControllerCronJob]
  · rfl

/-- C5, amended, at the rule and base rule of the example. -/
theorem generateCronJobRule_chk_witness :
    ∃ r, generateCronJobRule (sampleCollaborators chkBase) chkRule "CronJob,Job" = some r ∧
      r ≠ kyvernoRule.empty ∧
      r.Name = "autogen-cronjob-chk" ∧
      r.MatchResources.map (fun x => x.Kinds) = some ["CronJob"] ∧
      (r.Mutation.bind fun x => x.Overlay) = some (JSON.obj [("spec", JSON.obj
        [("jobTemplate", JSON.obj [("spec", JSON.obj [("replicas", JSON.num 3)])])])]) :=
  generateCronJobRule_chk (sampleCollaborators chkBase) chkRule {} _ rfl rfl rfl rfl rfl rfl

/-- C6: for a base rule whose Mutation has Overlay set, every produced rule has
Mutation.Overlay = {spec: {jobTemplate: <base Overlay>}} and no other Mutation member
set; for a base rule whose Mutation has no Overlay but PatchStrategicMerge set, every
produced rule has Mutation.PatchStrategicMerge = {spec: {jobTemplate: <base
PatchStrategicMerge>}} and no other Mutation member set. In both cases a rule is
produced as soon as the controller set is applicable and MatchResources is present. -/
theorem generateCronJobRule_mutation (C : Collaborators) (rule : Rule)
    (controllers : String) (m : Mutation)
    (hm : (C.generateRuleForControllers rule "Job").Mutation = some m) :
    (∀ o, m.Overlay = some o →
      (∀ r, generateCronJobRule C rule controllers = some r → r ≠ kyvernoRule.empty →
        r.Mutation = some {
          Overlay := some (JSON.obj [("spec", JSON.obj [("jobTemplate", o)])]),
          Patches := [], PatchStrategicMerge := none, PatchesJSON6902 := "",
          ForEachMutation := none }) ∧
      (hasCronJob controllers = true →
        (C.generateRuleForControllers rule "Job").MatchResources.isSome = true →
        ∃ r, generateCronJobRule C rule controllers = some r ∧ r ≠ kyvernoRule.empty)) ∧
    (∀ p, m.Overlay = none → m.PatchStrategicMerge = some p →
      (∀ r, generateCronJobRule C rule controllers = some r → r ≠ kyvernoRule.empty →
        r.Mutation = some {
          Overlay := none, Patches := [],
          PatchStrategicMerge := some (JSON.obj [("spec", JSON.obj [("jobTemplate", p)])]),
          PatchesJSON6902 := "", ForEachMutation := none }) ∧
      (hasCronJob controllers = true →
        (C.generateRuleForControllers rule "Job").MatchResources.isSome = true →
        ∃ r, generateCronJobRule C rule controllers = some r ∧ r ≠ kyvernoRule.empty)) := by
  constructor
  · intro o ho
    have key := generateCronJobRule_of_mutation C rule controllers m
      (fun K => { K with Mutation := some { Overlay := some (wrapJobTemplate o) } })
      (fun _ => rfl) hm
      (fun K hK => dispatchPayload_overlay C rule K o (by rw [hK]; exact ho))
    refine ⟨fun r hr hne => ?_, key.2⟩
    obtain ⟨K, -, rfl⟩ := key.1 r hr hne
    rfl
  · intro p ho hp
    have key := generateCronJobRule_of_mutation C rule controllers m
      (fun K => { K with Mutation := some { PatchStrategicMerge := some (wrapJobTemplate p) } })
      (fun _ => rfl) hm
      (fun K hK => dispatchPayload_patchStrategicMerge C rule K p (by rw [hK]; exact ho)
        (by rw [hK]; exact hp))
    refine ⟨fun r hr hne => ?_, key.2⟩
    obtain ⟨K, -, rfl⟩ := key.1 r hr hne
    rfl

/-- C6, at a base rule with an Overlay and at one with a PatchStrategicMerge. -/
theorem generateCronJobRule_mutation_witness :
    (∃ r, generateCronJobRule (sampleCollaborators chkBase) chkRule "CronJob" = some r ∧
      r.Mutation = some { Overlay := some (JSON.obj [("spec", JSON.obj [("jobTemplate",
        JSON.obj [("spec", JSON.obj [("replicas", JSON.num 3)])])])]) }) ∧
    (∃ r, generateCronJobRule (sampleCollaborators patchBase) chkRule "CronJob" = some r ∧
      r.Mutation = some { PatchStrategicMerge := some (JSON.obj [("spec",
        JSON.obj [("jobTemplate", JSON.obj [("spec", JSON.num 1)])])]) }) :=
  ⟨⟨_, rfl, ((generateCronJobRule_mutation (sampleCollaborators chkBase) chkRule "CronJob" _
      rfl).1 _ rfl).1 _ rfl (fun h => absurd (congrArg kyvernoRule.Name h) (by decide))⟩,
    ⟨_, rfl, ((generateCronJobRule_mutation (sampleCollaborators patchBase) chkRule "CronJob" _
      rfl).2 _ rfl rfl).1 _ rfl (fun h => absurd (congrArg kyvernoRule.Name h) (by decide))⟩⟩

/-- C7: for a base rule that reaches the Validation.Pattern shape (no Mutation.Overlay,
no Mutation.PatchStrategicMerge, Validation.Pattern set), every produced rule has
Validation.Pattern = {spec: {jobTemplate: <base Pattern>}} and a Validation.Message that
is the message path rewriter applied to the original rule's validation message with
anchor "spec/jobTemplate/spec/template" and payload kind "pattern"; a rule is produced
as soon as the controller set is applicable and MatchResources is present. -/
theorem generateCronJobRule_pattern (C : Collaborators) (rule : Rule)
    (controllers : String) (v : Validation) (p : JSON)
    (h1 : ((C.generateRuleForControllers rule "Job").Mutation.bind fun m => m.Overlay) = none)
    (h2 : ((C.generateRuleForControllers rule "Job").Mutation.bind
      fun m => m.PatchStrategicMerge) = none)
    (hv : (C.generateRuleForControllers rule "Job").Validation = some v)
    (hp : v.Pattern = some p) :
    (∀ r, generateCronJobRule C rule controllers = some r → r ≠ kyvernoRule.empty →
      ∃ w, r.Validation = some w ∧
        w.Pattern = some (JSON.obj [("spec", JSON.obj [("jobTemplate", p)])]) ∧
        w.Message = C.FindAndShiftReferences rule.Validation.Message
          "spec/jobTemplate/spec/template" "pattern") ∧
    (hasCronJob controllers = true →
      (C.generateRuleForControllers rule "Job").MatchResources.isSome = true →
      ∃ r, generateCronJobRule C rule controllers = some r ∧ r ≠ kyvernoRule.empty) := by
  have key := generateCronJobRule_of_validation C rule controllers v
    (fun K => { K with Validation := some {
      Message := C.FindAndShiftReferences rule.Validation.Message jobTemplateAnchor "pattern",
      Pattern := some (wrapJobTemplate p) } })
    (fun _ => rfl) h1 h2 hv
    (fun K k1 k2 hK => dispatchPayload_pattern C rule K p k1 k2 (by rw [hK]; exact hp))
  refine ⟨fun r hr hne => ?_, key.2⟩
  obtain ⟨K, -, rfl⟩ := key.1 r hr hne
  exact ⟨_, rfl, rfl, rfl⟩

/-- C7, at a base rule whose payload is a Validation.Pattern. -/
theorem generateCronJobRule_pattern_witness :
    ∃ r w, generateCronJobRule (sampleCollaborators patternBase) msgRule "CronJob" = some r ∧
      r.Validation = some w ∧
      w.Pattern = some (JSON.obj [("spec", JSON.obj [("jobTemplate",
        JSON.obj [("spec", JSON.str "?*")])])]) ∧
      w.Message
        = "limits required at spec/template/spec|spec/jobTemplate/spec/template|pattern" :=
  ((generateCronJobRule_pattern (sampleCollaborators patternBase) msgRule "CronJob"
    _ _ rfl rfl rfl rfl).1 _ rfl
      (fun h => absurd (congrArg kyvernoRule.Name h) (by decide))).elim
    fun w hw => ⟨_, w, rfl, hw.1, hw.2.1, hw.2.2.trans (by decide)⟩

/-- C8: for a base rule that reaches the Validation.AnyPattern shape (no Overlay, no
PatchStrategicMerge, no Validation.Pattern, no ForEachValidation.Pattern, AnyPattern
set) and whose AnyPattern deserializes to the sequence `ps`, every produced rule has as
Validation.AnyPattern an array of exactly as many elements, the i-th being
{spec: {jobTemplate: ps[i]}}, and a Message that is the message path rewriter applied
with anchor "spec/jobTemplate/spec/template" and payload kind "anyPattern"; a rule is
produced as soon as the controller set is applicable and MatchResources is present. -/
theorem generateCronJobRule_anyPattern (C : Collaborators) (rule : Rule)
    (controllers : String) (v : Validation) (a : JSON) (ps : List JSON)
    (h1 : ((C.generateRuleForControllers rule "Job").Mutation.bind fun m => m.Overlay) = none)
    (h2 : ((C.generateRuleForControllers rule "Job").Mutation.bind
      fun m => m.PatchStrategicMerge) = none)
    (hv : (C.generateRuleForControllers rule "Job").Validation = some v)
    (h3 : v.Pattern = none)
    (h4 : (v.ForEachValidation.bind fun f => f.Pattern) = none)
    (h5 : v.AnyPattern = some a)
    (hdes : C.DeserializeAnyPattern v = Except.ok ps) :
    (∀ r, generateCronJobRule C rule controllers = some r → r ≠ kyvernoRule.empty →
      ∃ w out, r.Validation = some w ∧ w.AnyPattern = some (JSON.arr out) ∧
        out.length = ps.length ∧
        (∀ (i : Nat) (hi : i < ps.length) (ho : i < out.length),
          out[i] = JSON.obj [("spec", JSON.obj [("jobTemplate", ps[i])])]) ∧
        w.Message = C.FindAndShiftReferences rule.Validation.Message
          "spec/jobTemplate/spec/template" "anyPattern") ∧
    (hasCronJob controllers = true →
      (C.generateRuleForControllers rule "Job").MatchResources.isSome = true →
      ∃ r, generateCronJobRule C rule controllers = some r ∧ r ≠ kyvernoRule.empty) := by
  have key := generateCronJobRule_of_validation C rule controllers v
    (fun K => { K with Validation := some {
      Message :=
        C.FindAndShiftReferences rule.Validation.Message jobTemplateAnchor "anyPattern",
      AnyPattern := some (JSON.arr (ps.map wrapJobTemplate)) } })
    (fun _ => rfl) h1 h2 hv
    (fun K k1 k2 hK => by
      rw [dispatchPayload_anyPattern C rule K v a k1 k2 hK h3 h4 h5, hdes])
  refine ⟨fun r hr hne => ?_, key.2⟩
  obtain ⟨K, -, rfl⟩ := key.1 r hr hne
  refine ⟨_, ps.map wrapJobTemplate, rfl, rfl, by simp, ?_, rfl⟩
  intro i hi ho
  simp [wrapJobTemplate]

/-- C8, at a base rule whose AnyPattern is an array of two patterns. -/
theorem generateCronJobRule_anyPattern_witness :
    ∃ r w, generateCronJobRule (sampleCollaborators anyPatternBase) msgRule "CronJob" = some r ∧
      r.Validation = some w ∧
      w.AnyPattern = some (JSON.arr [
        JSON.obj [("spec", JSON.obj [("jobTemplate", JSON.obj [("spec", JSON.str "a")])])],
        JSON.obj [("spec", JSON.obj [("jobTemplate", JSON.obj [("spec", JSON.str "b")])])]]) ∧
      w.Message
        = "limits required at spec/template/spec|spec/jobTemplate/spec/template|anyPattern" :=
  ((generateCronJobRule_anyPattern (sampleCollaborators anyPatternBase) msgRule
    "CronJob" _ _ _ rfl rfl rfl rfl rfl rfl rfl).1 _ rfl
      (fun h => absurd (congrArg kyvernoRule.Name h) (by decide))).elim
    fun w hw => hw.elim fun out ho =>
      ⟨_, w, rfl, ho.1, anyPattern_two w out ho.2.1 ho.2.2.1 ho.2.2.2.1,
        ho.2.2.2.2.trans (by decide)⟩

/-- C9, the code at a failing input: the base rule carries the verification of image
"ghcr.io/b" and the original rule that of image "ghcr.io/a"; the produced rule carries
a copy of the ORIGINAL rule's element (line 156 ranges over `rule.VerifyImages`), which
differs from the base rule's element. -/
theorem generateCronJobRule_verifyImages_divergence :
    ∃ r, generateCronJobRule (sampleCollaborators imageBase) imageRule "CronJob" = some r ∧
      r ≠ kyvernoRule.empty ∧
      (sampleCollaborators imageBase).generateRuleForControllers imageRule "Job" = imageBase ∧
      imageBase.VerifyImages = some [some { Image := "ghcr.io/b" }] ∧
      r.VerifyImages = some [some { Image := "ghcr.io/a" }] ∧
      r.VerifyImages ≠ imageBase.VerifyImages :=
  ⟨_, rfl, fun h => absurd (congrArg kyvernoRule.Name h) (by decide), rfl, rfl, rfl,
    fun h => absurd
      (congrArg (fun l => l.map fun xs => xs.map fun x => x.map ImageVerification.Image) h)
      (by decide)⟩

/-- C11: for every original rule and every controller-set string that has "all" as
one of its comma-separated tokens, generateCronJobRule returns the same result as for
that rule with the controller set "CronJob". -/
theorem generateCronJobRule_all_token (C : Collaborators) (rule : Rule)
    (controllers : String) (h : "all" ∈ stringsSplit controllers ',') :
    generateCronJobRule C rule controllers = generateCronJobRule C rule "CronJob" := by
  apply generateCronJobRule_congr
  have hall : stringsContains controllers "all" = true :=
    stringsContains_of_token controllers "all" h
  have hcron : hasCronJob "CronJob" = true := by decide
  rw [hcron]
  simp [hasCronJob, hall]

/-- C11, at the controller set "Deployment,all" and the rule of the worked example. -/
theorem generateCronJobRule_all_token_witness :
    generateCronJobRule (sampleCollaborators chkBase) chkRule "Deployment,all"
      = generateCronJobRule (sampleCollaborators chkBase) chkRule "CronJob" :=
  generateCronJobRule_all_token (sampleCollaborators chkBase) chkRule "Deployment,all"
    (by decide)

/-- C12: for every base rule that has no ExcludeResources and for which a rule is
produced, the produced rule's ExcludeResources is absent as well, whatever the shape of
its MatchResources. -/
theorem generateCronJobRule_exclude_absent (C : Collaborators) (rule : Rule)
    (controllers : String) (r : kyvernoRule)
    (h : generateCronJobRule C rule controllers = some r) (hne : r ≠ kyvernoRule.empty)
    (hex : (C.generateRuleForControllers rule "Job").ExcludeResources = none) :
    r.ExcludeResources = none := by
  obtain ⟨mr, -, -, hx⟩ := generateCronJobRule_filters C rule controllers r h hne
  rw [hx, hex]
  rfl

/-- C12, at a base rule with a match-only Any list and no ExcludeResources. -/
theorem generateCronJobRule_exclude_absent_witness :
    ∃ r, generateCronJobRule (sampleCollaborators anyMatchBase) chkRule "CronJob" = some r ∧
      r.MatchResources = some { Any := [{ Kinds := ["CronJob"] }] } ∧
      r.ExcludeResources = none :=
  ⟨_, rfl, rfl,
    generateCronJobRule_exclude_absent (sampleCollaborators anyMatchBase) chkRule "CronJob" _
      rfl (fun h => absurd (congrArg kyvernoRule.Name h) (by decide)) rfl⟩

/-- C13: for a base rule that reaches the Validation.AnyPattern shape (the controller
set is applicable, MatchResources is present, no earlier shape matches) and whose
AnyPattern fails to deserialize as a sequence, generateCronJobRule still produces a
rule (not Absent), with the derived name, the rewritten match and exclude filters, a
Message rewritten with payload kind "anyPattern", and an empty AnyPattern list. -/
theorem generateCronJobRule_anyPattern_undecodable (C : Collaborators) (rule : Rule)
    (controllers : String) (mr : MatchResources) (v : Validation) (a : JSON) (e : String)
    (hc : hasCronJob controllers = true)
    (hmr : (C.generateRuleForControllers rule "Job").MatchResources = some mr)
    (h1 : ((C.generateRuleForControllers rule "Job").Mutation.bind fun m => m.Overlay) = none)
    (h2 : ((C.generateRuleForControllers rule "Job").Mutation.bind
      fun m => m.PatchStrategicMerge) = none)
    (hv : (C.generateRuleForControllers rule "Job").Validation = some v)
    (h3 : v.Pattern = none)
    (h4 : (v.ForEachValidation.bind fun f => f.Pattern) = none)
    (h5 : v.AnyPattern = some a)
    (hdes : C.DeserializeAnyPattern v = Except.error e) :
    ∃ r w, generateCronJobRule C rule controllers = some r ∧ r ≠ kyvernoRule.empty ∧
      r.Name = cronJobName rule ∧
      r.MatchResources = some (matchRewritten C mr) ∧
      r.ExcludeResources
        = excludeRewritten C (C.generateRuleForControllers rule "Job").ExcludeResources ∧
      r.Validation = some w ∧
      w.Message = C.FindAndShiftReferences rule.Validation.Message
        "spec/jobTemplate/spec/template" "anyPattern" ∧
      w.AnyPattern = some (JSON.arr []) := by
  have hb : C.generateRuleForControllers rule "Job" ≠ kyvernoRule.empty := by
    intro hb
    rw [hb] at hv
    cases hv
  rw [generateCronJobRule_eq C rule controllers mr hc hb hmr,
    dispatchPayload_anyPattern C rule
      (prepared C rule (C.generateRuleForControllers rule "Job") mr) v a h1 h2 hv h3 h4 h5,
    hdes]
  refine ⟨_, _, rfl, ne_empty_of_name _ ?_, rfl, rfl, rfl, rfl, rfl, rfl⟩
  exact cronJobName_ne_empty rule

/-- C13, at a base rule whose AnyPattern is a string. -/
theorem generateCronJobRule_anyPattern_undecodable_witness :
    ∃ r w, generateCronJobRule (sampleCollaborators badAnyPatternBase) msgRule "CronJob"
        = some r ∧
      r ≠ kyvernoRule.empty ∧ r.Name = "autogen-cronjob-chk" ∧
      r.MatchResources = some { Kinds := ["CronJob"] } ∧
      r.Validation = some w ∧ w.AnyPattern = some (JSON.arr []) :=
  (generateCronJobRule_anyPattern_undecodable (sampleCollaborators badAnyPatternBase)
    msgRule "CronJob" {} _ (JSON.str "not an array") "expect type array"
    (by decide) rfl rfl rfl rfl rfl rfl rfl rfl).elim
    fun r hr => hr.elim fun w hw =>
      ⟨r, w, hw.1, hw.2.1, hw.2.2.1.trans (by decide), hw.2.2.2.1.trans rfl,
        hw.2.2.2.2.2.1, hw.2.2.2.2.2.2.2⟩

/-- C14: for every produced rule: if the base rule's MatchResources.Any is non-empty,
the produced Any is cronJobAnyAllAutogenRule(base Any) while All and Kinds equal the
base rule's; else if the base All is non-empty, the produced All is
cronJobAnyAllAutogenRule(base All) and Kinds equals the base rule's; else the produced
MatchResources.Kinds is exactly ["CronJob"]. -/
theorem generateCronJobRule_match (C : Collaborators) (rule : Rule)
    (controllers : String) (r : kyvernoRule)
    (h : generateCronJobRule C rule controllers = some r) (hne : r ≠ kyvernoRule.empty) :
    ∃ mr out, (C.generateRuleForControllers rule "Job").MatchResources = some mr ∧
      r.MatchResources = some out ∧
      (mr.Any ≠ [] →
        cronJobAnyAllAutogenRule C mr.Any = some out.Any ∧ out.All = mr.All ∧
          out.Kinds = mr.Kinds) ∧
      (mr.Any = [] → mr.All ≠ [] →
        cronJobAnyAllAutogenRule C mr.All = some out.All ∧ out.Kinds = mr.Kinds) ∧
      (mr.Any = [] → mr.All = [] → out.Kinds = ["CronJob"]) := by
  obtain ⟨mr, hmr, hm, -⟩ := generateCronJobRule_filters C rule controllers r h hne
  refine ⟨mr, matchRewritten C mr, hmr, hm, ?_, ?_, ?_⟩
  · intro hany
    have hpos : mr.Any.length > 0 := List.length_pos.mpr hany
    simp [matchRewritten, hpos, cronJobAnyAllAutogenRule_eq]
  · intro hany hall
    have hpos : mr.All.length > 0 := List.length_pos.mpr hall
    simp [matchRewritten, hany, hpos, cronJobAnyAllAutogenRule_eq]
  · intro hany hall
    simp [matchRewritten, hany, hall, PodControllerCronJob]

/-- C14, at a base rule whose MatchResources has an Any list. -/
theorem generateCronJobRule_match_witness :
    ∃ r out, generateCronJobRule (sampleCollaborators anyMatchBase) chkRule "CronJob"
        = some r ∧
      r.MatchResources = some out ∧ out.Any = [{ Kinds := ["CronJob"] }] ∧
      out.All = [] ∧ out.Kinds = [] :=
  (generateCronJobRule_match (sampleCollaborators anyMatchBase) chkRule "CronJob" _ rfl
    (fun h => absurd (congrArg kyvernoRule.Name h) (by decide))).elim
    fun mr hmr => hmr.elim fun out ho =>
      have hmr : mr = { Any := [{ Kinds := ["Job", "Pod"] }] } :=
        (Option.some.inj ho.1).symm
      have h3 := ho.2.2.1 (by rw [hmr]; exact List.cons_ne_nil _ _)
      ⟨_, out, rfl, ho.2.1,
        (Option.some.inj (h3.1.symm.trans (by rw [hmr]; rfl))),
        h3.2.1.trans (by rw [hmr]), h3.2.2.trans (by rw [hmr])⟩

/-- C15: for a base rule whose ExcludeResources is present with both Any and All
empty, the produced ExcludeResources.Kinds is ["CronJob"] if and only if the base
ExcludeResources.Kinds is non-empty, and it is empty when the base Kinds is empty. -/
theorem generateCronJobRule_exclude_kinds (C : Collaborators) (rule : Rule)
    (controllers : String) (r : kyvernoRule) (ex : ExcludeResources)
    (h : generateCronJobRule C rule controllers = some r) (hne : r ≠ kyvernoRule.empty)
    (hex : (C.generateRuleForControllers rule "Job").ExcludeResources = some ex)
    (hany : ex.Any = []) (hall : ex.All = []) :
    ∃ out, r.ExcludeResources = some out ∧
      (out.Kinds = ["CronJob"] ↔ ex.Kinds ≠ []) ∧
      (ex.Kinds = [] → out.Kinds = []) := by
  obtain ⟨mr, -, -, hx⟩ := generateCronJobRule_filters C rule controllers r h hne
  rw [hex] at hx
  by_cases hk : ex.Kinds = []
  · refine ⟨ex, ?_, ?_, fun _ => hk⟩
    · rw [hx]
      simp [excludeRewritten, hany, hall, hk]
    · rw [hk]
      simp
  · have hpos : ex.Kinds.length > 0 := List.length_pos.mpr hk
    refine ⟨{ ex with Kinds := [PodControllerCronJob] }, ?_, ?_, fun h0 => absurd h0 hk⟩
    · rw [hx]
      simp [excludeRewritten, hany, hall, hpos]
    · simp [hk, PodControllerCronJob]

/-- C15, at a base rule whose ExcludeResources has the plain kind list ["Job"]. -/
theorem generateCronJobRule_exclude_kinds_witness :
    ∃ r out, generateCronJobRule (sampleCollaborators excludeKindsBase) chkRule "CronJob"
        = some r ∧
      r.ExcludeResources = some out ∧ out.Kinds = ["CronJob"] :=
  (generateCronJobRule_exclude_kinds (sampleCollaborators excludeKindsBase) chkRule
    "CronJob" _ { Kinds := ["Job"] } rfl
    (fun h => absurd (congrArg kyvernoRule.Name h) (by decide)) rfl rfl rfl).elim
    fun out ho => ⟨_, out, rfl, ho.1, ho.2.1.mpr (List.cons_ne_nil _ _)⟩

/-- C16: for a base rule with no Mutation.Overlay and no Mutation.PatchStrategicMerge
whose Validation has both Pattern and AnyPattern set, every produced rule is the
Pattern result: its Validation has Pattern = {spec: {jobTemplate: <base Pattern>}}, a
Message rewritten with payload kind "pattern", and no AnyPattern (nor any other
member); a rule is produced as soon as the controller set is applicable and
MatchResources is present. -/
theorem generateCronJobRule_pattern_first (C : Collaborators) (rule : Rule)
    (controllers : String) (v : Validation) (p a : JSON)
    (h1 : ((C.generateRuleForControllers rule "Job").Mutation.bind fun m => m.Overlay) = none)
    (h2 : ((C.generateRuleForControllers rule "Job").Mutation.bind
      fun m => m.PatchStrategicMerge) = none)
    (hv : (C.generateRuleForControllers rule "Job").Validation = some v)
    (hp : v.Pattern = some p) (ha : v.AnyPattern = some a) :
    (∀ r, generateCronJobRule C rule controllers = some r → r ≠ kyvernoRule.empty →
      r.Validation = some {
        Message := C.FindAndShiftReferences rule.Validation.Message
          "spec/jobTemplate/spec/template" "pattern",
        Pattern := some (JSON.obj [("spec", JSON.obj [("jobTemplate", p)])]),
        AnyPattern := none, Deny := none, ForEachValidation := none }) ∧
    (hasCronJob controllers = true →
      (C.generateRuleForControllers rule "Job").MatchResources.isSome = true →
      ∃ r, generateCronJobRule C rule controllers = some r ∧ r ≠ kyvernoRule.empty) := by
  have _hany : v.AnyPattern.isSome = true := by rw [ha]; rfl
  have key := generateCronJobRule_of_validation C rule controllers v
    (fun K => { K with Validation := some {
      Message := C.FindAndShiftReferences rule.Validation.Message jobTemplateAnchor "pattern",
      Pattern := some (wrapJobTemplate p) } })
    (fun _ => rfl) h1 h2 hv
    (fun K k1 k2 hK => dispatchPayload_pattern C rule K p k1 k2 (by rw [hK]; exact hp))
  refine ⟨fun r hr hne => ?_, key.2⟩
  obtain ⟨K, -, rfl⟩ := key.1 r hr hne
  rfl

/-- C16, at a base rule with both Pattern and AnyPattern set. -/
theorem generateCronJobRule_pattern_first_witness :
    ∃ r, generateCronJobRule (sampleCollaborators bothPatternsBase) msgRule "CronJob"
        = some r ∧
      r.Validation = some {
        Message := "limits required at spec/template/spec|spec/jobTemplate/spec/template|pattern",
        Pattern := some (JSON.obj [("spec", JSON.obj [("jobTemplate",
          JSON.obj [("spec", JSON.str "?*")])])]),
        AnyPattern := none } :=
  ⟨_, rfl,
    ((generateCronJobRule_pattern_first (sampleCollaborators bothPatternsBase) msgRule
      "CronJob" _ _ _ rfl rfl rfl rfl rfl).1 _ rfl
        (fun h => absurd (congrArg kyvernoRule.Name h) (by decide))).trans
      (congrArg (fun m : String => some ({
        Message := m,
        Pattern := some (JSON.obj [("spec", JSON.obj [("jobTemplate",
          JSON.obj [("spec", JSON.str "?*")])])]) } : Validation)) (by decide))⟩

/-- C17: for a base rule that reaches one of the three per-item validation shapes (no
Overlay, no PatchStrategicMerge, no Validation.Pattern, ForEachValidation present),
every produced rule has Validation.ForEachValidation equal to the base rule's, and a
Message rewritten with anchor "spec/jobTemplate/spec/template" and payload kind
"pattern" when ForEachValidation.Pattern is set, and payload kind "anyPattern" when
Pattern and Validation.AnyPattern are unset and ForEachValidation.AnyPattern, or else
ForEachValidation.Deny, is set; in each case a rule is produced as soon as the
controller set is applicable and MatchResources is present. -/
theorem generateCronJobRule_forEachValidation (C : Collaborators) (rule : Rule)
    (controllers : String) (v : Validation) (f : ForEachValidation)
    (h1 : ((C.generateRuleForControllers rule "Job").Mutation.bind fun m => m.Overlay) = none)
    (h2 : ((C.generateRuleForControllers rule "Job").Mutation.bind
      fun m => m.PatchStrategicMerge) = none)
    (hv : (C.generateRuleForControllers rule "Job").Validation = some v)
    (h3 : v.Pattern = none)
    (hf : v.ForEachValidation = some f) :
    (f.Pattern ≠ none →
      (∀ r, generateCronJobRule C rule controllers = some r → r ≠ kyvernoRule.empty →
        ∃ w, r.Validation = some w ∧ w.ForEachValidation = some f ∧
          w.Message = C.FindAndShiftReferences rule.Validation.Message
            "spec/jobTemplate/spec/template" "pattern") ∧
      (hasCronJob controllers = true →
        (C.generateRuleForControllers rule "Job").MatchResources.isSome = true →
        ∃ r, generateCronJobRule C rule controllers = some r ∧ r ≠ kyvernoRule.empty)) ∧
    (f.Pattern = none → v.AnyPattern = none → (f.AnyPattern ≠ none ∨ f.Deny ≠ none) →
      (∀ r, generateCronJobRule C rule controllers = some r → r ≠ kyvernoRule.empty →
        ∃ w, r.Validation = some w ∧ w.ForEachValidation = some f ∧
          w.Message = C.FindAndShiftReferences rule.Validation.Message
            "spec/jobTemplate/spec/template" "anyPattern") ∧
      (hasCronJob controllers = true →
        (C.generateRuleForControllers rule "Job").MatchResources.isSome = true →
        ∃ r, generateCronJobRule C rule controllers = some r ∧ r ≠ kyvernoRule.empty)) := by
  constructor
  · intro hq
    obtain ⟨q, hq⟩ := Option.ne_none_iff_exists'.mp hq
    have key := generateCronJobRule_of_validation C rule controllers v
      (fun K => { K with Validation := some {
        Message :=
          C.FindAndShiftReferences rule.Validation.Message jobTemplateAnchor "pattern",
        ForEachValidation := some f } })
      (fun _ => rfl) h1 h2 hv
      (fun K k1 k2 hK => dispatchPayload_forEachPattern C rule K v f q k1 k2 hK h3 hf hq)
    refine ⟨fun r hr hne => ?_, key.2⟩
    obtain ⟨K, -, rfl⟩ := key.1 r hr hne
    exact ⟨_, rfl, rfl, rfl⟩
  · intro h4 h5 hor
    have hd : ∀ K : kyvernoRule, (K.Mutation.bind fun m => m.Overlay) = none →
        (K.Mutation.bind fun m => m.PatchStrategicMerge) = none → K.Validation = some v →
        dispatchPayload C rule K = some { K with Validation := some {
          Message :=
            C.FindAndShiftReferences rule.Validation.Message jobTemplateAnchor "anyPattern",
          ForEachValidation := some f } } := by
      intro K k1 k2 hK
      cases h6 : f.AnyPattern with
      | some q => exact dispatchPayload_forEachAnyPattern C rule K v f q k1 k2 hK h3 hf h4 h5 h6
      | none =>
        rcases hor with hor | hor
        · exact absurd h6 hor
        · obtain ⟨q, hq⟩ := Option.ne_none_iff_exists'.mp hor
          exact dispatchPayload_forEachDeny C rule K v f q k1 k2 hK h3 hf h4 h5 h6 hq
    have key := generateCronJobRule_of_validation C rule controllers v
      (fun K => { K with Validation := some {
        Message :=
          C.FindAndShiftReferences rule.Validation.Message jobTemplateAnchor "anyPattern",
        ForEachValidation := some f } })
      (fun _ => rfl) h1 h2 hv hd
    refine ⟨fun r hr hne => ?_, key.2⟩
    obtain ⟨K, -, rfl⟩ := key.1 r hr hne
    exact ⟨_, rfl, rfl, rfl⟩

/-- C17, at a base rule whose payload is ForEachValidation.Deny. -/
theorem generateCronJobRule_forEachValidation_witness :
    ∃ r w, generateCronJobRule (sampleCollaborators denyBase) msgRule "CronJob" = some r ∧
      r.Validation = some w ∧ w.ForEachValidation = some denyForEach ∧
      w.Message
        = "limits required at spec/template/spec|spec/jobTemplate/spec/template|anyPattern" :=
  ((((generateCronJobRule_forEachValidation (sampleCollaborators denyBase) msgRule "CronJob"
    _ denyForEach rfl rfl rfl rfl rfl).2 rfl rfl
      (Or.inr (fun h => Option.noConfusion h))).1) _ rfl
      (fun h => absurd (congrArg kyvernoRule.Name h) (by decide))).elim
    fun w hw => ⟨_, w, rfl, hw.1, hw.2.1, hw.2.2.trans (by decide)⟩

/-- C18: for every list of filter items in which no item's Kinds contains "Job" (per
the membership helper), cronJobAnyAllAutogenRule returns a list equal to its input; in
particular, with a helper that does not find "Job" in ["CronJob"], a list whose items
all have Kinds = ["CronJob"] is returned unchanged. -/
theorem cronJobAnyAllAutogenRule_no_job (C : Collaborators) (v : ResourceFilters) :
    ((∀ item ∈ v, C.ContainsPod item.Kinds "Job" = false) →
      cronJobAnyAllAutogenRule C v = some v) ∧
    (C.ContainsPod ["CronJob"] "Job" = false → (∀ item ∈ v, item.Kinds = ["CronJob"]) →
      cronJobAnyAllAutogenRule C v = some v) := by
  have main : (∀ item ∈ v, C.ContainsPod item.Kinds "Job" = false) →
      cronJobAnyAllAutogenRule C v = some v := by
    intro h
    rw [cronJobAnyAllAutogenRule_eq]
    congr 1
    conv_rhs => rw [← List.map_id v]
    apply List.map_congr_left
    intro item hitem
    simp [rewriteItem, h item hitem]
  refine ⟨main, fun hc hall => main ?_⟩
  intro item hitem
  rw [hall item hitem]
  exact hc

/-- C18, at a list whose two items have Kinds = ["CronJob"], with plain membership as
the helper. -/
theorem cronJobAnyAllAutogenRule_no_job_witness :
    cronJobAnyAllAutogenRule (sampleCollaborators {})
        [{ Kinds := ["CronJob"] }, { Kinds := ["CronJob"], Selectors := JSON.str "x" }]
      = some [{ Kinds := ["CronJob"] }, { Kinds := ["CronJob"], Selectors := JSON.str "x" }] :=
  (cronJobAnyAllAutogenRule_no_job (sampleCollaborators {})
    [{ Kinds := ["CronJob"] }, { Kinds := ["CronJob"], Selectors := JSON.str "x" }]).2
    (by decide) (by
      intro item hitem
      simp only [List.mem_cons, List.mem_singleton, List.not_mem_nil, or_false] at hitem
      rcases hitem with rfl | rfl <;> rfl)

/-- C19, the code at a failing input: the base rule has its MatchResources present and
one image verification, the original rule has two; the copy loop of lines 156-158
writes at index 1 of a list of length 1 and the call panics. -/
theorem generateCronJobRule_verifyImages_panic :
    ((sampleCollaborators imageBase).generateRuleForControllers twoImagesRule
        "Job").MatchResources.isSome = true ∧
      generateCronJobRule (sampleCollaborators imageBase) twoImagesRule "CronJob" = none :=
  ⟨rfl, rfl⟩

/-- C20: stripCronJob is idempotent, and no comma-separated token of its result equals
"CronJob". -/
theorem stripCronJob_idempotent (s : String) :
    stripCronJob (stripCronJob s) = stripCronJob s ∧
      ∀ t ∈ stringsSplit (stripCronJob s) ',', t ≠ "CronJob" := by
  have hs := stripCronJob_eq_join s
  generalize hF : ((stringsSplit s ',').filter fun t => !(t == PodControllerCronJob)) = F
    at hs
  have hmem : ∀ t ∈ F, t ≠ "CronJob" ∧ ',' ∉ t.data := by
    intro t ht
    rw [← hF] at ht
    obtain ⟨ht1, ht2⟩ := List.mem_filter.mp ht
    refine ⟨?_, stringsSplit_no_comma s t ht1⟩
    simpa [PodControllerCronJob] using ht2
  by_cases hnil : F = []
  · rw [hs, hnil]
    decide
  · have hsplit : stringsSplit (stringsJoin F ",") ',' = F :=
      stringsSplit_stringsJoin F hnil (fun t ht => (hmem t ht).2)
    constructor
    · rw [hs, stripCronJob_eq_join, hsplit]
      congr 1
      apply List.filter_eq_self.mpr
      intro t ht
      simpa [PodControllerCronJob] using (hmem t ht).1
    · rw [hs, hsplit]
      exact fun t ht => (hmem t ht).1

end Kyverno
